import Mathlib

/-!
Verification of the Taffy chunked asset container (`src/asset.h`,
`src/include/taffy.h`, `src/include/overlay.h`, `src/taffy_streaming.cpp`,
`src/taffy_audio_tools.cpp`).

Files are modelled as lists of natural numbers (one per byte); multi-byte
integers are little-endian, matching the packed on-disk layout of the C++
structs (`#pragma pack(push, 1)`).  Machine integers are naturals with
explicit `% 2^w` where the C++ performs truncating casts.  Floating-point
fields are never computed with in the verified paths — the tools only
`memcpy` IEEE-754 bit patterns — so floats are represented by their 32-bit
encodings.
-/

namespace Taffy

/-- Little-endian encoding of the low `w` bytes of `v`, mirroring how the C++
writes a packed `uintN_t` field to disk. -/
def leBytes : Nat → Nat → List Nat
  | 0, _ => []
  | w + 1, v => v % 256 :: leBytes w (v / 256)

/-- Little-endian decoding of a byte list, mirroring how reading a packed
`uintN_t` field back from disk reassembles the value. -/
def readLE : List Nat → Nat
  | [] => 0
  | b :: rest => b + 256 * readLE rest

/-- One round of the bit-serial CRC32 inner loop:
`crc = (crc >> 1) ^ (0xEDB88320 * (crc & 1))` (`Asset::calculate_crc32`). -/
def crc32Round (c : Nat) : Nat := (c >>> 1) ^^^ (0xEDB88320 * (c &&& 1))

/-- Folding one byte into the CRC state: xor the byte in, then run eight
rounds (`Asset::calculate_crc32`). -/
def crc32Byte (c b : Nat) : Nat :=
  crc32Round (crc32Round (crc32Round (crc32Round
    (crc32Round (crc32Round (crc32Round (crc32Round (c ^^^ b))))))))

/-- CRC32 of a byte sequence exactly as `Asset::calculate_crc32` computes it:
initial value `0xFFFFFFFF`, bit-serial polynomial `0xEDB88320`, final
complement (`~crc`, i.e. xor with `0xFFFFFFFF` on a 32-bit value). -/
def crc32 (data : List Nat) : Nat :=
  (data.foldl crc32Byte 0xFFFFFFFF) ^^^ 0xFFFFFFFF

/-- 64-bit FNV-1a over a byte sequence (`Taffy::fnv1a_hash`); the multiply is
a `uint64_t` multiply, hence the `% 2^64`. -/
def fnv1a (s : List Nat) : Nat :=
  s.foldl (fun h b => ((h ^^^ b) * 0x100000001B3) % 18446744073709551616)
    0xCBF29CE484222325

/-- The bytes of the ASCII string `"frequency"`. -/
def frequencyName : List Nat := [102, 114, 101, 113, 117, 101, 110, 99, 121]

/-- The bytes of the ASCII string `"data_driven_fragment_shader"`. -/
def dataDrivenFragName : List Nat :=
  [100, 97, 116, 97, 95, 100, 114, 105, 118, 101, 110, 95, 102, 114, 97,
   103, 109, 101, 110, 116, 95, 115, 104, 97, 100, 101, 114]

/-- The packed `AssetHeader` of `taffy.h` (`#pragma pack(push, 1)`), 360 bytes
on disk.  Adjacent raw-byte fields that the verified paths never interpret
numerically (`magic`, the two `Vec3Q_Packed` world bounds, `creator`,
`description`, `reserved`) are carried as byte lists of the packed widths;
integer fields are naturals. -/
structure AssetHeader where
  magic : List Nat
  version_major : Nat
  version_minor : Nat
  version_patch : Nat
  asset_type : Nat
  feature_flags : Nat
  chunk_count : Nat
  dependency_count : Nat
  ai_model_count : Nat
  total_size : Nat
  world_bounds : List Nat
  created_timestamp : Nat
  creator : List Nat
  description : List Nat
  reserved : List Nat
  deriving Repr, DecidableEq

/-- `sizeof(AssetHeader)` with byte packing. -/
def headerSize : Nat := 360

/-- `sizeof(ChunkDirectoryEntry)` with byte packing. -/
def entrySize : Nat := 76

/-- The packed `ChunkDirectoryEntry` of `taffy.h`, 76 bytes on disk.  The
chunk `type` is the raw `uint32_t` value of the `ChunkType` enum. -/
structure DirEntry where
  type : Nat
  flags : Nat
  offset : Nat
  size : Nat
  checksum : Nat
  name : List Nat
  reserved : List Nat
  deriving Repr, DecidableEq

/-- On-disk bytes of an `AssetHeader`, field by field in declaration order
exactly as `file.write(reinterpret_cast<const char*>(&header_), sizeof(header_))`
emits the packed struct. -/
def serializeHeader (h : AssetHeader) : List Nat :=
  h.magic ++ leBytes 4 h.version_major ++ leBytes 4 h.version_minor ++
  leBytes 4 h.version_patch ++ leBytes 4 h.asset_type ++
  leBytes 8 h.feature_flags ++ leBytes 4 h.chunk_count ++
  leBytes 4 h.dependency_count ++ leBytes 4 h.ai_model_count ++
  leBytes 8 h.total_size ++ h.world_bounds ++ leBytes 8 h.created_timestamp ++
  h.creator ++ h.description ++ h.reserved

/-- Read the `w`-byte field at byte offset `off` of a file. -/
def fieldN (f : List Nat) (off w : Nat) : Nat := readLE ((f.drop off).take w)

/-- Read the `w` raw bytes at byte offset `off` of a file. -/
def fieldB (f : List Nat) (off w : Nat) : List Nat := (f.drop off).take w

/-- Reassemble an `AssetHeader` from the front of a file, at the packed
offsets of `taffy.h`, as `file.read(reinterpret_cast<char*>(&temp_header), …)`
does. -/
def parseHeader (f : List Nat) : AssetHeader where
  magic := fieldB f 0 4
  version_major := fieldN f 4 4
  version_minor := fieldN f 8 4
  version_patch := fieldN f 12 4
  asset_type := fieldN f 16 4
  feature_flags := fieldN f 20 8
  chunk_count := fieldN f 28 4
  dependency_count := fieldN f 32 4
  ai_model_count := fieldN f 36 4
  total_size := fieldN f 40 8
  world_bounds := fieldB f 48 48
  created_timestamp := fieldN f 96 8
  creator := fieldB f 104 64
  description := fieldB f 168 128
  reserved := fieldB f 296 64

/-- On-disk bytes of a `ChunkDirectoryEntry`, field by field in declaration
order. -/
def serializeEntry (e : DirEntry) : List Nat :=
  leBytes 4 e.type ++ leBytes 4 e.flags ++ leBytes 8 e.offset ++
  leBytes 8 e.size ++ leBytes 4 e.checksum ++ e.name ++ e.reserved

/-- Reassemble a `ChunkDirectoryEntry` from the front of a byte list. -/
def parseEntry (f : List Nat) : DirEntry where
  type := fieldN f 0 4
  flags := fieldN f 4 4
  offset := fieldN f 8 8
  size := fieldN f 16 8
  checksum := fieldN f 24 4
  name := fieldB f 28 32
  reserved := fieldB f 60 16

/-- Well-formedness of a header record as held in memory by the C++ class:
every integer field fits its machine width and every raw-byte field has the
packed width.  All reachable `Asset` states satisfy this. -/
def WFHeader (h : AssetHeader) : Prop :=
  h.magic.length = 4 ∧ h.version_major < 2 ^ 32 ∧ h.version_minor < 2 ^ 32 ∧
  h.version_patch < 2 ^ 32 ∧ h.asset_type < 2 ^ 32 ∧
  h.feature_flags < 2 ^ 64 ∧ h.chunk_count < 2 ^ 32 ∧
  h.dependency_count < 2 ^ 32 ∧ h.ai_model_count < 2 ^ 32 ∧
  h.total_size < 2 ^ 64 ∧ h.world_bounds.length = 48 ∧
  h.created_timestamp < 2 ^ 64 ∧ h.creator.length = 64 ∧
  h.description.length = 128 ∧ h.reserved.length = 64

instance (h : AssetHeader) : Decidable (WFHeader h) := by
  unfold WFHeader; infer_instance

/-- Well-formedness of a directory entry as held in memory. -/
def WFEntry (e : DirEntry) : Prop :=
  e.type < 2 ^ 32 ∧ e.flags < 2 ^ 32 ∧ e.offset < 2 ^ 64 ∧ e.size < 2 ^ 64 ∧
  e.checksum < 2 ^ 32 ∧ e.name.length = 32 ∧ e.reserved.length = 16

instance (e : DirEntry) : Decidable (WFEntry e) := by
  unfold WFEntry; infer_instance

/-- `ChunkType::GEOM` as its little-endian FourCC value. -/
def GEOM : Nat := 0x4D4F4547

/-- `ChunkType::SHDR`. -/
def SHDR : Nat := 0x52444853

/-- `ChunkType::AUDI`. -/
def AUDI : Nat := 0x49445541

/-- `FeatureFlags::QuantizedCoords`. -/
def QuantizedCoords : Nat := 1

/-- `FeatureFlags::HashBasedNames`. -/
def HashBasedNames : Nat := 16

/-- `FeatureFlags::Audio`. -/
def AudioFlag : Nat := 1024

/-- The in-memory `Asset` of `taffy.h`: header, chunk directory in insertion
order, and the `std::unordered_map<ChunkType, std::vector>` payload map.  The
map is represented as an association list whose construction (insert
overwrites in place, erase removes) keeps keys duplicate-free, so its length
is `chunk_data_.size()`. -/
structure Asset where
  header : AssetHeader
  directory : List DirEntry
  data : List (Nat × List Nat)
  deriving Repr, DecidableEq

/-- `chunk_data_.find(type)` on the association-list map. -/
def mapFind (m : List (Nat × List Nat)) (t : Nat) : Option (List Nat) :=
  (m.find? (fun p => p.1 == t)).map Prod.snd

/-- `chunk_data_[type] = data`: overwrite in place when the key is present,
otherwise add the new key. -/
def mapInsert (m : List (Nat × List Nat)) (t : Nat) (d : List Nat) :
    List (Nat × List Nat) :=
  if (m.find? (fun p => p.1 == t)).isSome then
    m.map (fun p => if p.1 == t then (t, d) else p)
  else m ++ [(t, d)]

/-- `chunk_data_.erase(type)`. -/
def mapErase (m : List (Nat × List Nat)) (t : Nat) : List (Nat × List Nat) :=
  m.filter (fun p => p.1 != t)

/-- The header the `Asset::Asset()` constructor builds: magic `TAF!`, version
1.0.0, master asset type, no features, zero counts,
`total_size = sizeof(AssetHeader)`, zero timestamp and bounds, creator
`"Unknown"` and description `"Taffy Asset"` in their NUL-padded buffers. -/
def defaultHeader : AssetHeader where
  magic := [84, 65, 70, 33]
  version_major := 1
  version_minor := 0
  version_patch := 0
  asset_type := 0
  feature_flags := 0
  chunk_count := 0
  dependency_count := 0
  ai_model_count := 0
  total_size := 360
  world_bounds := List.replicate 48 0
  created_timestamp := 0
  creator := [85, 110, 107, 110, 111, 119, 110] ++ List.replicate 57 0
  description := [84, 97, 102, 102, 121, 32, 65, 115, 115, 101, 116] ++
    List.replicate 117 0
  reserved := List.replicate 64 0

/-- A freshly constructed `Asset`. -/
def emptyAsset : Asset := ⟨defaultHeader, [], []⟩

/-- `Asset::set_feature_flags`. -/
def set_feature_flags (a : Asset) (flags : Nat) : Asset :=
  { a with header := { a.header with feature_flags := flags } }

/-- `Asset::has_feature`: `(feature_flags & flag) == flag`. -/
def has_feature (a : Asset) (flag : Nat) : Bool :=
  a.header.feature_flags &&& flag == flag

/-- `Asset::set_creator`: the 64-byte buffer after `strncpy` + forced NUL;
the already-truncated-and-padded buffer is taken as the argument. -/
def set_creator (a : Asset) (buf : List Nat) : Asset :=
  { a with header := { a.header with creator := buf } }

/-- `Asset::set_description`: the 128-byte buffer after `strncpy` + forced
NUL. -/
def set_description (a : Asset) (buf : List Nat) : Asset :=
  { a with header := { a.header with description := buf } }

/-- `Asset::add_chunk` (`asset.h`): store the payload in the map under its
tag (overwriting any prior payload with that tag), append a directory entry
with `offset = 0`, `size = data.size()` and CRC32 of the payload, and set the
header's chunk count to the directory length (`static_cast<uint32_t>`).
`name` is the 32-byte NUL-padded name buffer. -/
def add_chunk (a : Asset) (t : Nat) (d : List Nat) (name : List Nat) : Asset :=
  let entry : DirEntry :=
    { type := t, flags := 0, offset := 0, size := d.length,
      checksum := crc32 d, name := name, reserved := List.replicate 16 0 }
  let dir := a.directory ++ [entry]
  { header := { a.header with chunk_count := dir.length % 2 ^ 32 },
    directory := dir,
    data := mapInsert a.data t d }

/-- `Asset::get_chunk_count`: the directory length. -/
def get_chunk_count (a : Asset) : Nat := a.directory.length

/-- `Asset::remove_chunk` (`taffy.h`): if the tag is absent from the data map
return unchanged; otherwise erase the payload, erase the first directory
entry with that tag (if any), and resynchronise the chunk count. -/
def remove_chunk (a : Asset) (t : Nat) : Asset :=
  if (mapFind a.data t).isSome then
    let data := mapErase a.data t
    match a.directory.findIdx? (fun e => e.type == t) with
    | some i =>
      let dir := a.directory.eraseIdx i
      { header := { a.header with chunk_count := dir.length % 2 ^ 32 },
        directory := dir, data := data }
    | none => { a with data := data }
  else a

/-- Offset assignment of `Asset::save_to_file`: walk the directory in order
giving each entry `offset = current_offset` and rolling
`current_offset += entry.size` in `uint64_t`; returns the relocated entries
and the final offset (which becomes `header_.total_size`). -/
def assignOffsets (acc : Nat) : List DirEntry → List DirEntry × Nat
  | [] => ([], acc)
  | e :: rest =>
    let r := assignOffsets ((acc + e.size) % 2 ^ 64) rest
    ({ e with offset := acc } :: r.1, r.2)

/-- The chunk-data writing loop of `Asset::save_to_file`: for each entry look
its payload up by tag (fail when missing), check that the stream position
equals the entry's laid-out offset (fail on drift), and append the payload
bytes. -/
def writeChunks (m : List (Nat × List Nat)) (pos : Nat) :
    List DirEntry → Option (List Nat)
  | [] => some []
  | e :: rest =>
    match mapFind m e.type with
    | none => none
    | some d =>
      if pos ≠ e.offset then none
      else (writeChunks m (pos + d.length) rest).map (d ++ ·)

/-- `Asset::save_to_file` (`asset.h`): fail when the header chunk count,
directory length and payload-map size disagree; otherwise lay out offsets
from `sizeof(AssetHeader) + n * sizeof(ChunkDirectoryEntry)`, set
`total_size`, and emit header, directory and payloads.  Returns the mutated
asset together with the file bytes, or `none` on failure. -/
def save_to_file (a : Asset) : Option (Asset × List Nat) :=
  if a.header.chunk_count ≠ a.directory.length ∨
      a.header.chunk_count ≠ a.data.length then none
  else
    let dataStart := headerSize + a.directory.length * entrySize
    let r := assignOffsets dataStart a.directory
    let header := { a.header with total_size := r.2 }
    match writeChunks a.data dataStart r.1 with
    | none => none
    | some chunkBytes =>
      some ({ a with header := header, directory := r.1 },
        serializeHeader header ++ (r.1.map serializeEntry).flatten ++ chunkBytes)

/-- Outcome classification of `Asset::load_from_file_safe`.  The
`headerInvalid` case carries the diagnostic dump of the first 16 bytes of
the file that the failure path prints. -/
inductive LoadError where
  | tooSmall : LoadError
  | headerInvalid : List Nat → LoadError
  | dirTooBig : LoadError
  | entryBounds : Nat → LoadError
  | checksum : Nat → LoadError
  deriving Repr, DecidableEq

/-- The header-validation predicate of `Asset::load_from_file_safe`: magic
must be `TAF!`, version components at most 100/100/1000, chunk count at most
1000, and `total_size` equal to the actual file size.  The C++ accumulates
the four checks into `magic_valid` before the single failure return. -/
def headerBad (h : AssetHeader) (fileSize : Nat) : Bool :=
  h.magic != [84, 65, 70, 33] ||
  decide (h.version_major > 100) || decide (h.version_minor > 100) ||
  decide (h.version_patch > 1000) || decide (h.chunk_count > 1000) ||
  h.total_size != fileSize

/-- Per-entry bounds validation of the directory-reading loop:
`offset < file_size && offset + size <= file_size`. -/
def entryOk (e : DirEntry) (fileSize : Nat) : Bool :=
  decide (e.offset < fileSize) && decide (e.offset + e.size ≤ fileSize)

/-- First index whose directory entry fails the bounds validation. -/
def firstBadEntry (entries : List DirEntry) (fileSize : Nat) : Option Nat :=
  entries.findIdx? (fun e => ! entryOk e fileSize)

/-- A value-initialised `ChunkDirectoryEntry`, as `std::vector::resize`
creates before the read loop fills the slots. -/
def zeroEntry : DirEntry :=
  { type := 0, flags := 0, offset := 0, size := 0, checksum := 0,
    name := List.replicate 32 0, reserved := List.replicate 16 0 }

/-- The chunk-reading loop of `load_from_file_safe`: seek to each validated
entry's offset, read its payload, recompute the CRC32 and compare with the
stored checksum; on mismatch stop with the partially filled map (the member
`chunk_data_` was cleared before the loop and holds the chunks read so
far).  `k` is the index of the entry being read, for the error report. -/
def readChunksLoop (f : List Nat) (k : Nat) (acc : List (Nat × List Nat)) :
    List DirEntry → List (Nat × List Nat) × Option LoadError
  | [] => (acc, none)
  | e :: rest =>
    let d := (f.drop e.offset).take e.size
    if crc32 d ≠ e.checksum then (acc, some (.checksum k))
    else readChunksLoop f (k + 1) (mapInsert acc e.type d) rest

/-- The chunk directory as the directory-reading loop of
`load_from_file_safe` parses it: entry `i` is read from byte offset
`sizeof(AssetHeader) + i * sizeof(ChunkDirectoryEntry)`. -/
def parsedEntries (f : List Nat) : List DirEntry :=
  (List.range (parseHeader f).chunk_count).map
    (fun i => parseEntry (f.drop (headerSize + i * entrySize)))

/-- `Asset::load_from_file_safe` (`asset.h`) as a state transformer on the
member fields: returns the asset after the call together with `none` on
success or the failure that made it return `false`.  Mirrors the mutation
order of the C++: the header member is overwritten only after validation
passes; the directory is resized (value-initialised slots) and filled entry
by entry up to the first bounds failure; the data map is cleared and
refilled payload by payload, so a checksum failure leaves the chunks read
before it in the map. -/
def load_from_file_safe (a : Asset) (f : List Nat) : Asset × Option LoadError :=
  if f.length < headerSize then (a, some .tooSmall)
  else if headerBad (parseHeader f) f.length then
    (a, some (.headerInvalid (f.take 16)))
  else if (parseHeader f).chunk_count * entrySize > f.length - headerSize then
    ({ a with header := parseHeader f }, some .dirTooBig)
  else
    match firstBadEntry (parsedEntries f) f.length with
    | some i =>
      ({ a with
          header := parseHeader f,
          directory := (parsedEntries f).take (i + 1) ++
            List.replicate ((parseHeader f).chunk_count - (i + 1)) zeroEntry },
        some (.entryBounds i))
    | none =>
      ({ a with
          header := parseHeader f,
          directory := parsedEntries f,
          data := (readChunksLoop f 0 [] (parsedEntries f)).1 },
        (readChunksLoop f 0 [] (parsedEntries f)).2)

/-- The keys of the association-list chunk map. -/
def mapKeys (m : List (Nat × List Nat)) : List Nat := m.map Prod.fst

/-- The payload the save/load loops associate with a directory entry. -/
def getPayload (m : List (Nat × List Nat)) (e : DirEntry) : List Nat :=
  (mapFind m e.type).getD []

/-- Directory relocation with no `uint64_t` reduction, the mathematical
shape of `assignOffsets` when the running offset never overflows. -/
def offsetsFrom (s : Nat) : List DirEntry → List DirEntry
  | [] => []
  | e :: rest => { e with offset := s } :: offsetsFrom (s + e.size) rest

/-- Reachable in-memory well-formedness of an `Asset`, as established by the
constructor, the setters and `add_chunk`/`remove_chunk`: machine-width
fields in range, magic and version from the constructor, the three chunk
counts in agreement, chunk tags pairwise distinct, map keys distinct, every
directory entry backed by its exact payload (size, CRC32), payloads
nonempty with byte-valued entries, and the laid-out file small enough that
the `uint64_t` offset arithmetic of `save_to_file` cannot wrap. -/
def WFAsset (a : Asset) : Prop :=
  WFHeader a.header ∧
  a.header.magic = [84, 65, 70, 33] ∧
  a.header.version_major ≤ 100 ∧ a.header.version_minor ≤ 100 ∧
  a.header.version_patch ≤ 1000 ∧
  a.header.chunk_count = a.directory.length ∧
  a.header.chunk_count = a.data.length ∧
  a.directory.length ≤ 1000 ∧
  (a.directory.map DirEntry.type).Nodup ∧
  (mapKeys a.data).Nodup ∧
  (∀ e ∈ a.directory, WFEntry e ∧ (mapFind a.data e.type).isSome ∧
    e.size = (getPayload a.data e).length ∧
    e.checksum = crc32 (getPayload a.data e) ∧ getPayload a.data e ≠ [] ∧
    ∀ b ∈ getPayload a.data e, b < 256) ∧
  headerSize + a.directory.length * entrySize +
    (a.directory.map DirEntry.size).sum < 2 ^ 64

instance (a : Asset) : Decidable (WFAsset a) := by
  unfold WFAsset; infer_instance

/-- The header `save_to_file` leaves behind on success: only `total_size` is
rewritten, to `header + directory + payload` bytes. -/
def savedHeader (a : Asset) : AssetHeader :=
  { a.header with total_size := headerSize + a.directory.length * entrySize +
      (a.directory.map DirEntry.size).sum }

/-- The relocated directory `save_to_file` leaves behind on success. -/
def savedDir (a : Asset) : List DirEntry :=
  offsetsFrom (headerSize + a.directory.length * entrySize) a.directory

/-- The file bytes `save_to_file` writes on success. -/
def savedFile (a : Asset) : List Nat :=
  serializeHeader (savedHeader a) ++
    ((savedDir a).map serializeEntry).flatten ++
    (a.directory.map (getPayload a.data)).flatten

/-- The payload map `load_from_file_safe` rebuilds from a saved file. -/
def loadedMap (a : Asset) : List (Nat × List Nat) :=
  a.directory.map (fun e => (e.type, getPayload a.data e))

/-- Equality of every header field the round-trip preserves: all of them
except `total_size`, which `save_to_file` rewrites. -/
def headerEqExceptTotal (h1 h2 : AssetHeader) : Prop :=
  h1.magic = h2.magic ∧ h1.version_major = h2.version_major ∧
  h1.version_minor = h2.version_minor ∧
  h1.version_patch = h2.version_patch ∧ h1.asset_type = h2.asset_type ∧
  h1.feature_flags = h2.feature_flags ∧ h1.chunk_count = h2.chunk_count ∧
  h1.dependency_count = h2.dependency_count ∧
  h1.ai_model_count = h2.ai_model_count ∧
  h1.world_bounds = h2.world_bounds ∧
  h1.created_timestamp = h2.created_timestamp ∧ h1.creator = h2.creator ∧
  h1.description = h2.description ∧ h1.reserved = h2.reserved

/-- Equality of every directory-entry field except `offset`, which
`save_to_file` assigns during layout. -/
def entryEqExceptOffset (e1 e2 : DirEntry) : Prop :=
  e1.type = e2.type ∧ e1.flags = e2.flags ∧ e1.size = e2.size ∧
  e1.checksum = e2.checksum ∧ e1.name = e2.name ∧ e1.reserved = e2.reserved

/-- Pointwise directory equality up to the `offset` field. -/
def dirEqExceptOffset (l1 l2 : List DirEntry) : Prop :=
  l1.length = l2.length ∧ ∀ i, ∀ h1 : i < l1.length, ∀ h2 : i < l2.length,
    entryEqExceptOffset (l1.get ⟨i, h1⟩) (l2.get ⟨i, h2⟩)

/-- First concrete witness asset: a fresh asset with one 3-byte GEOM chunk. -/
def geomAsset : Asset :=
  add_chunk emptyAsset GEOM [1, 2, 3] (List.replicate 32 0)

/-- The result of saving the one-chunk witness asset. -/
def geomSaved : Asset × List Nat := (save_to_file geomAsset).getD (emptyAsset, [])

/-- The payload bytes the chunk-reading loop extracts for an entry. -/
def chunkBytesAt (f : List Nat) (e : DirEntry) : List Nat :=
  (f.drop e.offset).take e.size

/-- A two-chunk asset: a 3-byte GEOM payload and a 4-byte AUDI payload. -/
def c7Asset : Asset :=
  add_chunk (add_chunk emptyAsset GEOM [1, 2, 3] (List.replicate 32 0))
    AUDI [9, 9, 9, 9] (List.replicate 32 0)

/-- The bytes `save_to_file` writes for `c7Asset`. -/
def c7GoodFile : List Nat := ((save_to_file c7Asset).getD (emptyAsset, [])).2

/-- `c7GoodFile` with its last byte (the AUDI payload's last byte) corrupted,
so the stored CRC32 of the second chunk no longer matches its payload. -/
def c7File : List Nat := c7GoodFile.take (c7GoodFile.length - 1) ++ [255]

/-- Modelled from the spec: `sizeof(GeometryChunk)` under byte packing.
`quan.h` (which defines `Vec3Q`) is not among the provided sources; the spec
glossary defines a quantized coordinate as a 3-vector of signed 64-bit
integers, so `Vec3Q` occupies 24 bytes and the packed `GeometryChunk` —
4 `uint32_t`, two `Vec3Q` bounds, `lod_distance`, `lod_level`,
`render_mode`, 2 caps, a 3-`uint32_t` workgroup, primitive type, `ms_flags`
and 2 reserved words — occupies 112 bytes. -/
def geometryChunkSize : Nat := 112

/-- The discriminator of `OverlayOperation::Type` that the claims exercise. -/
inductive OpKind where
  | shaderReplace : OpKind
  | vertexColorChange : OpKind
  | other : Nat → OpKind
  deriving Repr, DecidableEq

/-- The fields of the packed `OverlayOperation` that `apply_to_asset` and
the two claim operations consult. -/
structure OverlayOp where
  kind : OpKind
  target_hash : Nat
  data_offset : Nat
  data_size : Nat
  deriving Repr, DecidableEq

/-- The in-memory `Overlay` of `overlay.h`: header version, operation list,
and the shared operation-data blob each operation windows into. -/
structure Overlay where
  version_major : Nat
  operations : List OverlayOp
  operation_data : List Nat
  deriving Repr, DecidableEq

/-- Overwrite `repl.length` bytes of `l` starting at byte `off`, as the
`memcpy` into the mutable payload copy does. -/
def overwriteAt (l : List Nat) (off : Nat) (repl : List Nat) : List Nat :=
  l.take off ++ repl ++ l.drop (off + repl.length)

/-- The 32-byte name buffer `"modified_triangle_geometry"` that
`apply_vertex_color_change` hands to `add_chunk`. -/
def modifiedGeomName : List Nat :=
  [109, 111, 100, 105, 102, 105, 101, 100, 95, 116, 114, 105, 97, 110, 103,
   108, 101, 95, 103, 101, 111, 109, 101, 116, 114, 121] ++
  List.replicate 6 0

/-- `Overlay::apply_shader_replacement` (`overlay.h` lines 318-330): the
body is an explicit TODO stub — it prints the two hashes, performs no
modification of the asset whatsoever, and returns `true`. -/
def apply_shader_replacement (a : Asset) (op : OverlayOp) : Option Asset :=
  some a

/-- `Overlay::apply_vertex_color_change` (`overlay.h`): read
`vertex_count` and `vertex_stride` from the GEOM payload's packed
`GeometryChunk` header, reject an out-of-range vertex index
(`op.target_hash`), reject an operation with fewer than 16 data bytes,
derive the in-vertex colour offset from the asset's `QuantizedCoords`
feature flag (36 with the flag, 24 without), reject a write that would
overrun the payload, and otherwise overwrite exactly 16 bytes at
`sizeof(GeometryChunk) + index * stride + colour_offset` in a copy of the
payload which replaces the GEOM chunk via `remove_chunk` + `add_chunk`. -/
def apply_vertex_color_change (a : Asset) (op : OverlayOp)
    (opData : List Nat) : Option Asset :=
  match mapFind a.data GEOM with
  | none => none
  | some geom =>
    if op.target_hash ≥ fieldN geom 0 4 then none
    else if op.data_size < 16 then none
    else if geometryChunkSize + op.target_hash * fieldN geom 8 4 +
        (if has_feature a QuantizedCoords then 36 else 24) + 16 >
        geom.length then none
    else some (add_chunk (remove_chunk a GEOM) GEOM
      (overwriteAt geom
        (geometryChunkSize + op.target_hash * fieldN geom 8 4 +
          (if has_feature a QuantizedCoords then 36 else 24))
        ((opData.drop op.data_offset).take 16))
      modifiedGeomName)

/-- `Overlay::targets_asset`: the asset must have the hash-based-names
feature and the overlay's major version must not exceed 1. -/
def targets_asset (o : Overlay) (a : Asset) : Bool :=
  has_feature a HashBasedNames && ! decide (o.version_major > 1)

/-- One iteration of `Overlay::apply_to_asset`'s dispatch switch; operation
types other than the two implemented ones only log a warning and leave the
asset unchanged. -/
def apply_op (o : Overlay) (a : Asset) (op : OverlayOp) : Option Asset :=
  match op.kind with
  | .shaderReplace => apply_shader_replacement a op
  | .vertexColorChange => apply_vertex_color_change a op o.operation_data
  | .other _ => some a

/-- The operation loop of `Overlay::apply_to_asset`: apply in declaration
order, aborting on the first failure. -/
def applyOps (o : Overlay) : Asset → List OverlayOp → Option Asset
  | a, [] => some a
  | a, op :: rest =>
    match apply_op o a op with
    | none => none
    | some a2 => applyOps o a2 rest

/-- `Overlay::apply_to_asset`: fail unless the overlay targets the asset,
then run every operation in order. -/
def apply_to_asset (o : Overlay) (a : Asset) : Option Asset :=
  if targets_asset o a then applyOps o a o.operations else none

/-- GEOM payload for the C4 witness: one vertex, stride 40, no quantized
coordinates; 112-byte header plus one 40-byte vertex. -/
def c4Geom : List Nat :=
  leBytes 4 1 ++ leBytes 4 0 ++ leBytes 4 40 ++ List.replicate 140 7

/-- Witness asset for C4. -/
def c4Asset : Asset := add_chunk emptyAsset GEOM c4Geom (List.replicate 32 0)

/-- Witness operation for C4: vertex 0, 16 data bytes at blob offset 0. -/
def c4Op : OverlayOp :=
  { kind := .vertexColorChange, target_hash := 0, data_offset := 0,
    data_size := 16 }

/-- 16 bytes of little-endian IEEE-754 floats `(1, 0, 0, 1)`. -/
def c4OpData : List Nat :=
  [0, 0, 128, 63] ++ List.replicate 8 0 ++ [0, 0, 128, 63]

/-- SHDR payload for C3: `shader_count = 1`, one descriptor whose
`name_hash` is `fnv1a("data_driven_fragment_shader")` and whose
`spirv_size` is 8, followed by an 8-byte SPIR-V blob starting with the
magic `0x07230203`. -/
def c3ShaderPayload : List Nat :=
  leBytes 4 1 ++ List.replicate 12 0 ++
  leBytes 8 (fnv1a dataDrivenFragName) ++ leBytes 8 0 ++ leBytes 4 1 ++
  leBytes 4 8 ++ leBytes 4 0 ++ leBytes 4 0 ++ List.replicate 12 0 ++
  List.replicate 16 0 ++ [3, 2, 35, 7, 0, 0, 0, 0]

/-- Target asset for C3: holds the shader chunk and the hash-based-names
feature the overlay requires. -/
def c3Asset : Asset :=
  set_feature_flags
    (add_chunk emptyAsset SHDR c3ShaderPayload (List.replicate 32 0))
    HashBasedNames

/-- C3 overlay: one `ShaderReplace` operation whose 256-byte data window
starts with the SPIR-V magic. -/
def c3Overlay : Overlay :=
  { version_major := 1,
    operations := [⟨.shaderReplace, fnv1a dataDrivenFragName, 0, 256⟩],
    operation_data := [3, 2, 35, 7] ++ List.replicate 252 0 }

/-- `sizeof(AudioChunk)`: 8 `uint32_t` counters plus 4 reserved words. -/
def audioChunkSize : Nat := 48

/-- `sizeof(AudioChunk::Node)`. -/
def audioNodeSize : Nat := 56

/-- `sizeof(AudioChunk::Connection)`. -/
def audioConnSize : Nat := 32

/-- `sizeof(AudioChunk::Parameter)`. -/
def audioParamSize : Nat := 36

/-- Bytes of `"sine_oscillator"`. -/
def sineOscName : List Nat :=
  [115, 105, 110, 101, 95, 111, 115, 99, 105, 108, 108, 97, 116, 111, 114]

/-- Bytes of `"main_amplifier"`. -/
def mainAmpName : List Nat :=
  [109, 97, 105, 110, 95, 97, 109, 112, 108, 105, 102, 105, 101, 114]

/-- Bytes of `"time_parameter"`. -/
def timeParamName : List Nat :=
  [116, 105, 109, 101, 95, 112, 97, 114, 97, 109, 101, 116, 101, 114]

/-- Bytes of `"waveform"`. -/
def waveformName : List Nat := [119, 97, 118, 101, 102, 111, 114, 109]

/-- Bytes of `"amplitude"`. -/
def amplitudeName : List Nat := [97, 109, 112, 108, 105, 116, 117, 100, 101]

/-- Bytes of `"time"`. -/
def timeName : List Nat := [116, 105, 109, 101]

/-- The packed `AudioChunk` header as `createWaveformAudioAsset` memcpys it
(floating-point `sample_rate` was already truncated to `uint32_t`). -/
def audioHeaderBytes (nodes conns patterns samples params rate tick
    streaming : Nat) : List Nat :=
  leBytes 4 nodes ++ leBytes 4 conns ++ leBytes 4 patterns ++
  leBytes 4 samples ++ leBytes 4 params ++ leBytes 4 rate ++
  leBytes 4 tick ++ leBytes 4 streaming ++ List.replicate 16 0

/-- A packed `AudioChunk::Node`; the two editor-position floats are carried
as their IEEE-754 bit patterns. -/
def audioNodeBytes (id typ hash px py inC outC pOff pCnt : Nat) : List Nat :=
  leBytes 4 id ++ leBytes 4 typ ++ leBytes 8 hash ++ leBytes 4 px ++
  leBytes 4 py ++ leBytes 4 inC ++ leBytes 4 outC ++ leBytes 4 pOff ++
  leBytes 4 pCnt ++ List.replicate 16 0

/-- A packed `AudioChunk::Connection`; `strength` is an IEEE-754 bit
pattern. -/
def audioConnBytes (src srcOut dst dstIn strength : Nat) : List Nat :=
  leBytes 4 src ++ leBytes 4 srcOut ++ leBytes 4 dst ++ leBytes 4 dstIn ++
  leBytes 4 strength ++ List.replicate 12 0

/-- A packed `AudioChunk::Parameter`; the four floats are IEEE-754 bit
patterns. -/
def audioParamBytes (hash dflt mn mx curve flags : Nat) : List Nat :=
  leBytes 8 hash ++ leBytes 4 dflt ++ leBytes 4 mn ++ leBytes 4 mx ++
  leBytes 4 curve ++ leBytes 4 flags ++ List.replicate 8 0

/-- The AUDI payload `createWaveformAudioAsset` (`taffy_audio_tools.cpp`)
assembles: header, then the Oscillator/Amplifier/Parameter nodes, the two
connections, and the frequency/waveform/amplitude/time parameters, exactly
in memcpy order.  Float arguments are IEEE-754 bit patterns:
`0x42C80000 = 100.0f`, `0x43480000 = 200.0f`, `0x43960000 = 300.0f`,
`0x3F800000 = 1.0f`, `0x41A00000 = 20.0f`, `0x469C4000 = 20000.0f`,
`0x40000000 = 2.0f`, `0x40800000 = 4.0f`, `0x3F333333 = 0.7f`. -/
def waveformAudioPayload (frequencyBits sampleRate waveformBits
    durationBits : Nat) : List Nat :=
  audioHeaderBytes 3 2 0 0 4 sampleRate 0 0 ++
  (audioNodeBytes 0 0 (fnv1a sineOscName) 0x42C80000 0x42C80000 1 1 0 2 ++
   (audioNodeBytes 1 11 (fnv1a mainAmpName) 0x43960000 0x42C80000 2 1 2 1 ++
    (audioNodeBytes 2 41 (fnv1a timeParamName) 0x42C80000 0x43480000
        0 1 3 1 ++
     (audioConnBytes 0 0 1 0 0x3F800000 ++
      (audioConnBytes 2 0 0 0 0 ++
       (audioParamBytes (fnv1a frequencyName) frequencyBits 0x41A00000
           0x469C4000 0x40000000 0 ++
        (audioParamBytes (fnv1a waveformName) waveformBits 0 0x40800000
            0x3F800000 0 ++
         (audioParamBytes (fnv1a amplitudeName) 0x3F333333 0 0x3F800000
             0x3F800000 0 ++
          audioParamBytes (fnv1a timeName) 0 0 durationBits
            0x3F800000 0))))))))

/-- The 64-byte creator buffer `"Taffy Audio Test Creator"`. -/
def audioCreatorBuf : List Nat :=
  [84, 97, 102, 102, 121, 32, 65, 117, 100, 105, 111, 32, 84, 101, 115,
   116, 32, 67, 114, 101, 97, 116, 111, 114] ++ List.replicate 40 0

/-- The 128-byte description buffer `"Simple sine wave test audio"`. -/
def audioDescBuf : List Nat :=
  [83, 105, 109, 112, 108, 101, 32, 115, 105, 110, 101, 32, 119, 97, 118,
   101, 32, 116, 101, 115, 116, 32, 97, 117, 100, 105, 111] ++
  List.replicate 101 0

/-- The 32-byte chunk name `"Sine_wave_audio"`. -/
def sineWaveAudioName : List Nat :=
  [83, 105, 110, 101, 95, 119, 97, 118, 101, 95, 97, 117, 100, 105, 111] ++
  List.replicate 17 0

/-- The asset `createWaveformAudioAsset` builds before saving: creator,
description and the `Audio` feature flag are set, then the audio payload is
added as the single AUDI chunk. -/
def waveformAudioAsset (frequencyBits sampleRate waveformBits
    durationBits : Nat) : Asset :=
  add_chunk
    (set_feature_flags
      (set_description (set_creator emptyAsset audioCreatorBuf) audioDescBuf)
      AudioFlag)
    AUDI
    (waveformAudioPayload frequencyBits sampleRate waveformBits durationBits)
    sineWaveAudioName

/-- A cached chunk of `StreamingTaffyLoader`: payload bytes plus the access
counter (`ChunkCacheEntry`), keyed by the chunk index. -/
structure CacheEntry where
  idx : Nat
  data : List Nat
  access_count : Nat
  deriving Repr, DecidableEq

/-- The members of `StreamingTaffyLoader` the cache claims exercise.  The
`std::unordered_map` cache is represented as a list in iteration order; new
entries are appended (the C++ iteration order of the hash map is
unspecified — no claim about tie-breaking can rely on it). -/
structure Loader where
  fileOpen : Bool
  file : List Nat
  directory : List DirEntry
  cache : List CacheEntry
  hits : Nat
  misses : Nat
  deriving Repr, DecidableEq

/-- Sum of the cached payload sizes, as the eviction pass computes it. -/
def totalCacheSize (c : List CacheEntry) : Nat :=
  (c.map (fun e => e.data.length)).sum

/-- `chunk_cache_.find(index)`. -/
def cacheFind (c : List CacheEntry) (i : Nat) : Option CacheEntry :=
  c.find? (fun e => e.idx == i)

/-- `++it->second.access_count` on a cache hit. -/
def bumpAccess (c : List CacheEntry) (i : Nat) : List CacheEntry :=
  c.map (fun e =>
    if e.idx == i then { e with access_count := e.access_count + 1 } else e)

/-- Position and value of the first minimal `access_count` in iteration
order — the `min_it` scan of the eviction loop (strict `<`, so ties keep
the earlier entry). -/
def minPos : List CacheEntry → Nat × Nat
  | [] => (0, 0)
  | e :: rest =>
    match rest with
    | [] => (0, e.access_count)
    | r :: rs =>
      if (minPos (r :: rs)).2 < e.access_count then
        ((minPos (r :: rs)).1 + 1, (minPos (r :: rs)).2)
      else (0, e.access_count)

/-- `chunk_cache_.erase(min_it)`. -/
def removeLeastAccessed (c : List CacheEntry) : List CacheEntry :=
  c.eraseIdx (minPos c).1

/-- The 50 MiB cache bound of `StreamingTaffyLoader::loadChunk`. -/
def cacheLimit : Nat := 52428800

/-- The eviction loop of `loadChunk`: while the cached total exceeds 50 MiB
and the cache is nonempty, erase the first least-accessed entry.  It runs
over the cache as it is *before* the fresh chunk is inserted. -/
def evictLoop (c : List CacheEntry) : List CacheEntry :=
  if h : totalCacheSize c > cacheLimit ∧ c ≠ [] then
    evictLoop (removeLeastAccessed c)
  else c
termination_by c.length
decreasing_by
  have haux : ∀ l : List CacheEntry, l ≠ [] → (minPos l).1 < l.length := by
    intro l
    induction l with
    | nil => intro hl; exact absurd rfl hl
    | cons e rest ih =>
      intro _
      cases rest with
      | nil => simp [minPos]
      | cons r rs =>
        by_cases hlt : (minPos (r :: rs)).2 < e.access_count
        · have hih := ih (List.cons_ne_nil r rs)
          simp only [List.length_cons] at hih
          simp only [minPos, if_pos hlt, List.length_cons]
          omega
        · simp [minPos, if_neg hlt]
  have hlt := haux c h.2
  simp only [removeLeastAccessed, List.length_eraseIdx, if_pos hlt]
  omega

/-- `StreamingTaffyLoader::loadChunkInternal`: fail when the file is not
open; seek to the entry's offset and read exactly `size` bytes, failing on
a short read (`gcount` check). -/
def loadChunkInternal (L : Loader) (i : Nat) : List Nat :=
  if ¬ L.fileOpen then []
  else if ((L.file.drop (L.directory.getD i zeroEntry).offset).take
      (L.directory.getD i zeroEntry).size).length =
      (L.directory.getD i zeroEntry).size then
    (L.file.drop (L.directory.getD i zeroEntry).offset).take
      (L.directory.getD i zeroEntry).size
  else []

/-- `StreamingTaffyLoader::loadChunk` (`taffy_streaming.cpp`): reject an
out-of-range index; on a cache hit bump the hit counter and the entry's
access count and return the cached bytes; on a miss bump the miss counter,
read the chunk, and — when the read produced data — run the eviction loop
over the PRE-INSERTION cache contents and then insert the fresh entry with
`access_count = 1`. -/
def loadChunk (L : Loader) (i : Nat) : List Nat × Loader :=
  if i ≥ L.directory.length then ([], L)
  else
    match cacheFind L.cache i with
    | some e =>
      (e.data,
       { L with hits := L.hits + 1, cache := bumpAccess L.cache i })
    | none =>
      if loadChunkInternal L i = [] then
        (loadChunkInternal L i, { L with misses := L.misses + 1 })
      else
        (loadChunkInternal L i,
         { L with
            misses := L.misses + 1,
            cache := evictLoop L.cache ++
              [⟨i, loadChunkInternal L i, 1⟩] })

/-- First directory entry of the counterexample loader: 30 MiB at offset
0. -/
def c2Entry0 : DirEntry :=
  { type := AUDI, flags := 0, offset := 0, size := 31457280, checksum := 0,
    name := List.replicate 32 0, reserved := List.replicate 16 0 }

/-- Second directory entry: 30 MiB at offset 30 MiB. -/
def c2Entry1 : DirEntry :=
  { type := AUDI, flags := 0, offset := 31457280, size := 31457280,
    checksum := 0, name := List.replicate 32 0,
    reserved := List.replicate 16 0 }

/-- An open loader over a 60 MiB file with two 30 MiB chunks and an empty
cache. -/
def c2Loader : Loader :=
  { fileOpen := true, file := List.replicate 62914560 0,
    directory := [c2Entry0, c2Entry1], cache := [], hits := 0, misses := 0 }

/-- The loader state after the first `loadChunk` call of the
counterexample run. -/
def c2Loader1 : Loader :=
  { c2Loader with
    misses := 1
    cache := [⟨0, List.replicate 31457280 0, 1⟩] }

/-- The members of `ChunkedTaffyWriter` the claims exercise.  The output
stream is represented by the byte list `finalize` produces. -/
structure Writer where
  fileOpen : Bool
  currentOffset : Nat
  directory : List DirEntry
  chunkCount : Nat
  headerWritten : Bool
  deriving Repr, DecidableEq

/-- `ChunkedTaffyWriter::begin` (`taffy_streaming.cpp`): open the file,
reserve space for the header (`current_offset_ = sizeof(AssetHeader)`),
clear the directory and chunk count, and clear the header-written latch. -/
def writerBegin : Writer :=
  { fileOpen := true, currentOffset := headerSize, directory := [],
    chunkCount := 0, headerWritten := false }

/-- `ChunkedTaffyWriter::addMetadataChunk`: fail when the file is not open;
otherwise append a directory entry with `type = AUDI`, `offset = 0` (to be
set during finalize), `size = data.size()`, `flags = 0`, zeroed `reserved`
and the NUL-padded 32-byte name buffer, and bump the chunk count.  The
entry's `checksum` member is never assigned in the source (it is left as
uninitialized stack memory); it is modelled as 0 here. -/
def addMetadataChunk (w : Writer) (data : List Nat) (name : List Nat) :
    Option Writer :=
  if ¬ w.fileOpen then none
  else
    some { w with
      directory := w.directory ++
        [{ type := AUDI, flags := 0, offset := 0, size := data.length,
           checksum := 0, name := name,
           reserved := List.replicate 16 0 }]
      chunkCount := w.chunkCount + 1 }

/-- The 64-byte creator buffer `finalize` fills:
`"ChunkedTaffyWriter"` NUL-padded. -/
def writerCreatorBuf : List Nat :=
  [67, 104, 117, 110, 107, 101, 100, 84, 97, 102, 102, 121, 87, 114, 105,
   116, 101, 114] ++ List.replicate 46 0

/-- The 128-byte description buffer `finalize` fills:
`"Chunked streaming audio TAF"` NUL-padded. -/
def writerDescBuf : List Nat :=
  [67, 104, 117, 110, 107, 101, 100, 32, 115, 116, 114, 101, 97, 109, 105,
   110, 103, 32, 97, 117, 100, 105, 111, 32, 84, 65, 70] ++
  List.replicate 101 0

/-- The `AssetHeader` that `ChunkedTaffyWriter::finalize` fills in: magic
`TAF!`, version 1.0.0, `asset_type = 0`, `feature_flags = 0x2`
(streaming), zero world bounds, the writer's fixed creator and description
strings, zero reserved bytes, the given chunk count, creation timestamp
`ts`, and `total_size` equal to the final rolling offset. -/
def writerHeader (count totalSize ts : Nat) : AssetHeader where
  magic := [84, 65, 70, 33]
  version_major := 1
  version_minor := 0
  version_patch := 0
  asset_type := 0
  feature_flags := 2
  chunk_count := count
  dependency_count := 0
  ai_model_count := 0
  total_size := totalSize
  world_bounds := List.replicate 48 0
  created_timestamp := ts
  creator := writerCreatorBuf
  description := writerDescBuf
  reserved := List.replicate 64 0

/-- `ChunkedTaffyWriter::finalize` (`taffy_streaming.cpp`): reject when the
file is not open or the header was already written.  Otherwise assign
sequential directory offsets starting at
`sizeof(AssetHeader) + n * sizeof(ChunkDirectoryEntry)`, set `total_size`
to the final rolling offset, seek to position 0 and write the header
followed by the directory — and nothing else: no chunk payload bytes are
ever written to the stream.  `ts` is the wall-clock creation timestamp.
Returns the produced file bytes and the closed writer. -/
def writerFinalize (w : Writer) (ts : Nat) : Option (List Nat × Writer) :=
  if ¬ w.fileOpen ∨ w.headerWritten then none
  else
    let r := assignOffsets (headerSize + w.directory.length * entrySize)
      w.directory
    some (serializeHeader (writerHeader w.chunkCount r.2 ts) ++
        (r.1.map serializeEntry).flatten,
      { w with
        fileOpen := false
        headerWritten := true
        directory := r.1
        currentOffset := r.2 })

/-- The 32-byte name buffer for the counterexample chunk (`"meta"`). -/
def c8Name : List Nat := [109, 101, 116, 97] ++ List.replicate 28 0

/-- `begin(); addMetadataChunk({1,2,3,4}, "meta"); finalize()` at timestamp
0. -/
def c8Run : Option (List Nat × Writer) :=
  (addMetadataChunk writerBegin [1, 2, 3, 4] c8Name).bind
    (fun w => writerFinalize w 0)

/-- The file the run writes. -/
def c8File : List Nat := (c8Run.map Prod.fst).getD []

/-- The writer state after the run. -/
def c8Writer2 : Writer := (c8Run.map Prod.snd).getD writerBegin

@[simp] theorem length_leBytes (w v : Nat) : (leBytes w v).length = w := by
  induction w generalizing v with
  | zero => rfl
  | succ w ih => simp [leBytes, ih]

theorem readLE_leBytes (w v : Nat) : readLE (leBytes w v) = v % 256 ^ w := by
  induction w generalizing v with
  | zero => simp [leBytes, readLE, Nat.mod_one]
  | succ w ih =>
    simp only [leBytes, readLE, ih]
    rw [pow_succ, mul_comm (256 ^ w) 256, Nat.mod_mul]

theorem readLE_leBytes_of_lt {w v : Nat} (h : v < 256 ^ w) :
    readLE (leBytes w v) = v := by
  rw [readLE_leBytes, Nat.mod_eq_of_lt h]

theorem crc32Round_lt {c : Nat} (h : c < 2 ^ 32) : crc32Round c < 2 ^ 32 := by
  have h1 : c >>> 1 < 2 ^ 32 := by
    rw [Nat.shiftRight_eq_div_pow]
    exact lt_of_le_of_lt (Nat.div_le_self c (2 ^ 1)) h
  have h2 : 0xEDB88320 * (c &&& 1) < 2 ^ 32 := by
    have hand : c &&& 1 ≤ 1 := Nat.and_le_right
    calc 0xEDB88320 * (c &&& 1) ≤ 0xEDB88320 * 1 :=
          Nat.mul_le_mul_left _ hand
      _ < 2 ^ 32 := by norm_num
  exact Nat.xor_lt_two_pow h1 h2

theorem crc32Byte_lt {c b : Nat} (hc : c < 2 ^ 32) (hb : b < 256) :
    crc32Byte c b < 2 ^ 32 := by
  have h0 : c ^^^ b < 2 ^ 32 :=
    Nat.xor_lt_two_pow hc (lt_trans hb (by norm_num))
  exact crc32Round_lt (crc32Round_lt (crc32Round_lt (crc32Round_lt
    (crc32Round_lt (crc32Round_lt (crc32Round_lt (crc32Round_lt h0)))))))

theorem crc32_lt {data : List Nat} (h : ∀ b ∈ data, b < 256) :
    crc32 data < 2 ^ 32 := by
  have hfold : data.foldl crc32Byte 0xFFFFFFFF < 2 ^ 32 := by
    have general : ∀ (l : List Nat), (∀ b ∈ l, b < 256) → ∀ c, c < 2 ^ 32 →
        l.foldl crc32Byte c < 2 ^ 32 := by
      intro l
      induction l with
      | nil => intro _ c hc; simpa using hc
      | cons x xs ih =>
        intro hl c hc
        simp only [List.foldl_cons]
        exact ih (fun b hb => hl b (List.mem_cons_of_mem x hb))
          (crc32Byte c x) (crc32Byte_lt hc (hl x (List.mem_cons_self x xs)))
    exact general data h 0xFFFFFFFF (by norm_num)
  exact Nat.xor_lt_two_pow hfold (by norm_num)

@[simp] theorem length_serializeHeader {h : AssetHeader} (wf : WFHeader h) :
    (serializeHeader h).length = headerSize := by
  obtain ⟨m, _, _, _, _, _, _, _, _, _, wb, _, c, d, r⟩ := wf
  simp [serializeHeader, headerSize, m, wb, c, d, r]

@[simp] theorem length_serializeEntry {e : DirEntry} (wf : WFEntry e) :
    (serializeEntry e).length = entrySize := by
  obtain ⟨_, _, _, _, _, n, r⟩ := wf
  simp [serializeEntry, entrySize, n, r]

theorem block_step {s blk tail : List Nat} {off w : Nat}
    (hs : s.drop off = blk ++ tail) (hb : blk.length = w) :
    s.drop (off + w) = tail := by
  have h1 : s.drop (off + w) = (s.drop off).drop w := (List.drop_drop w off s).symm
  rw [h1, hs, List.drop_left' hb]

theorem fieldN_block {s tail : List Nat} {off w v : Nat}
    (hs : s.drop off = leBytes w v ++ tail) (hv : v < 256 ^ w) :
    fieldN s off w = v := by
  unfold fieldN
  rw [hs, List.take_left' (length_leBytes w v), readLE_leBytes_of_lt hv]

theorem fieldB_block {s blk tail : List Nat} {off w : Nat}
    (hs : s.drop off = blk ++ tail) (hb : blk.length = w) :
    fieldB s off w = blk := by
  unfold fieldB
  rw [hs, List.take_left' hb]

theorem parseHeader_serializeHeader {h : AssetHeader} (wf : WFHeader h)
    (rest : List Nat) : parseHeader (serializeHeader h ++ rest) = h := by
  obtain ⟨mg, vmaj, vmin, vpat, aty, ff, cc, dc, ai, ts, wb, ct, cr, ds, rv⟩ := h
  obtain ⟨hm, w1, w2, w3, w4, w5, w6, w7, w8, w9, hwb, w10, hcr, hds, hrv⟩ := wf
  have b32 : (256 : Nat) ^ 4 = 2 ^ 32 := by norm_num
  have b64 : (256 : Nat) ^ 8 = 2 ^ 64 := by norm_num
  set s : List Nat := serializeHeader (AssetHeader.mk mg vmaj vmin vpat aty ff
    cc dc ai ts wb ct cr ds rv) ++ rest with hs
  have d0 : s.drop 0 = mg ++ (leBytes 4 vmaj ++ (leBytes 4 vmin ++
      (leBytes 4 vpat ++ (leBytes 4 aty ++ (leBytes 8 ff ++ (leBytes 4 cc ++
      (leBytes 4 dc ++ (leBytes 4 ai ++ (leBytes 8 ts ++ (wb ++
      (leBytes 8 ct ++ (cr ++ (ds ++ (rv ++ rest)))))))))))))) := by
    simp [hs, serializeHeader, List.append_assoc]
  have d4 := block_step d0 hm
  have d8 := block_step d4 (length_leBytes 4 vmaj)
  have d12 := block_step d8 (length_leBytes 4 vmin)
  have d16 := block_step d12 (length_leBytes 4 vpat)
  have d20 := block_step d16 (length_leBytes 4 aty)
  have d28 := block_step d20 (length_leBytes 8 ff)
  have d32 := block_step d28 (length_leBytes 4 cc)
  have d36 := block_step d32 (length_leBytes 4 dc)
  have d40 := block_step d36 (length_leBytes 4 ai)
  have d48 := block_step d40 (length_leBytes 8 ts)
  have d96 := block_step d48 hwb
  have d104 := block_step d96 (length_leBytes 8 ct)
  have d168 := block_step d104 hcr
  have d296 := block_step d168 hds
  simp only [parseHeader, AssetHeader.mk.injEq]
  refine ⟨fieldB_block d0 hm, fieldN_block (by simpa using d4) (b32 ▸ w1),
    fieldN_block (by simpa using d8) (b32 ▸ w2),
    fieldN_block (by simpa using d12) (b32 ▸ w3),
    fieldN_block (by simpa using d16) (b32 ▸ w4),
    fieldN_block (by simpa using d20) (b64 ▸ w5),
    fieldN_block (by simpa using d28) (b32 ▸ w6),
    fieldN_block (by simpa using d32) (b32 ▸ w7),
    fieldN_block (by simpa using d36) (b32 ▸ w8),
    fieldN_block (by simpa using d40) (b64 ▸ w9),
    fieldB_block (by simpa using d48) hwb,
    fieldN_block (by simpa using d96) (b64 ▸ w10),
    fieldB_block (by simpa using d104) hcr,
    fieldB_block (by simpa using d168) hds,
    fieldB_block (by simpa using d296) hrv⟩

theorem parseEntry_serializeEntry {e : DirEntry} (wf : WFEntry e)
    (rest : List Nat) : parseEntry (serializeEntry e ++ rest) = e := by
  obtain ⟨ty, fl, off, sz, ck, nm, rv⟩ := e
  obtain ⟨w1, w2, w3, w4, w5, hnm, hrv⟩ := wf
  have b32 : (256 : Nat) ^ 4 = 2 ^ 32 := by norm_num
  have b64 : (256 : Nat) ^ 8 = 2 ^ 64 := by norm_num
  set s : List Nat := serializeEntry (DirEntry.mk ty fl off sz ck nm rv) ++ rest
    with hs
  have d0 : s.drop 0 = leBytes 4 ty ++ (leBytes 4 fl ++ (leBytes 8 off ++
      (leBytes 8 sz ++ (leBytes 4 ck ++ (nm ++ (rv ++ rest)))))) := by
    simp [hs, serializeEntry, List.append_assoc]
  have d4 := block_step d0 (length_leBytes 4 ty)
  have d8 := block_step d4 (length_leBytes 4 fl)
  have d16 := block_step d8 (length_leBytes 8 off)
  have d24 := block_step d16 (length_leBytes 8 sz)
  have d28 := block_step d24 (length_leBytes 4 ck)
  have d60 := block_step d28 hnm
  simp only [parseEntry, DirEntry.mk.injEq]
  refine ⟨fieldN_block d0 (b32 ▸ w1), fieldN_block (by simpa using d4) (b32 ▸ w2),
    fieldN_block (by simpa using d8) (b64 ▸ w3),
    fieldN_block (by simpa using d16) (b64 ▸ w4),
    fieldN_block (by simpa using d24) (b32 ▸ w5),
    fieldB_block (by simpa using d28) hnm,
    fieldB_block (by simpa using d60) hrv⟩

theorem mapFind_isSome_iff {m : List (Nat × List Nat)} {t : Nat} :
    (mapFind m t).isSome ↔ t ∈ mapKeys m := by
  simp [mapFind, mapKeys, List.find?_isSome]

theorem mapFind_cons (p : Nat × List Nat) (m : List (Nat × List Nat))
    (t : Nat) :
    mapFind (p :: m) t = if p.1 = t then some p.2 else mapFind m t := by
  by_cases h : p.1 = t <;> simp [mapFind, List.find?_cons, h]

theorem mapFind_eq_none {m : List (Nat × List Nat)} {t : Nat}
    (h : t ∉ mapKeys m) : mapFind m t = none := by
  by_contra hne
  exact h (mapFind_isSome_iff.mp (Option.isSome_iff_ne_none.mpr hne))

theorem mapFind_of_mem_nodup {m : List (Nat × List Nat)} {t : Nat}
    {d : List Nat} (hnd : (mapKeys m).Nodup) (hmem : (t, d) ∈ m) :
    mapFind m t = some d := by
  induction m with
  | nil => cases hmem
  | cons p rest ih =>
    rcases List.mem_cons.mp hmem with h | h
    · subst h; simp [mapFind]
    · have hk : t ∈ mapKeys rest := List.mem_map.mpr ⟨(t, d), h, rfl⟩
      have hp : p.1 ≠ t := by
        intro he
        exact (List.nodup_cons.mp hnd).1 (he ▸ hk)
      have := ih (List.nodup_cons.mp hnd).2 h
      simpa [mapFind, hp] using this

theorem mapInsert_of_not_mem {m : List (Nat × List Nat)} {t : Nat}
    {d : List Nat} (h : t ∉ mapKeys m) : mapInsert m t d = m ++ [(t, d)] := by
  unfold mapInsert
  have : m.find? (fun p => p.1 == t) = none := by
    rw [List.find?_eq_none]
    intro p hp he
    exact h (List.mem_map.mpr ⟨p, hp, by simpa using he⟩)
  simp [this]

theorem assignOffsets_eq_offsetsFrom (l : List DirEntry) (s : Nat)
    (h : s + (l.map DirEntry.size).sum < 2 ^ 64) :
    assignOffsets s l = (offsetsFrom s l, s + (l.map DirEntry.size).sum) := by
  induction l generalizing s with
  | nil => simp [assignOffsets, offsetsFrom]
  | cons e rest ih =>
    have hse : s + e.size + ((rest.map DirEntry.size).sum) < 2 ^ 64 := by
      simpa [Nat.add_assoc] using h
    have hmod : (s + e.size) % 2 ^ 64 = s + e.size :=
      Nat.mod_eq_of_lt (lt_of_le_of_lt (Nat.le_add_right _ _) hse)
    simp only [assignOffsets, offsetsFrom, List.map_cons, List.sum_cons]
    rw [hmod, ih _ hse]
    simp [Nat.add_assoc]

theorem offsetsFrom_length (s : Nat) (l : List DirEntry) :
    (offsetsFrom s l).length = l.length := by
  induction l generalizing s with
  | nil => rfl
  | cons e rest ih => simp [offsetsFrom, ih]

theorem offsetsFrom_get (s : Nat) (l : List DirEntry) (i : Nat)
    (hi : i < l.length) :
    (offsetsFrom s l).get ⟨i, by rw [offsetsFrom_length]; exact hi⟩ =
      { l.get ⟨i, hi⟩ with
        offset := s + ((l.take i).map DirEntry.size).sum } := by
  induction l generalizing s i with
  | nil => cases hi
  | cons e rest ih =>
    cases i with
    | zero => simp [offsetsFrom]
    | succ j =>
      have hj : j < rest.length := Nat.lt_of_succ_lt_succ hi
      simpa [offsetsFrom, List.take_succ_cons, Nat.add_assoc] using
        ih (s + e.size) j hj

theorem offsetsFrom_map_size (s : Nat) (l : List DirEntry) :
    (offsetsFrom s l).map DirEntry.size = l.map DirEntry.size := by
  induction l generalizing s with
  | nil => rfl
  | cons e rest ih => simp [offsetsFrom, ih]

theorem offsetsFrom_map_type (s : Nat) (l : List DirEntry) :
    (offsetsFrom s l).map DirEntry.type = l.map DirEntry.type := by
  induction l generalizing s with
  | nil => rfl
  | cons e rest ih => simp [offsetsFrom, ih]

theorem writeChunks_spec (m : List (Nat × List Nat)) (l : List DirEntry)
    (s : Nat)
    (h : ∀ e ∈ l, (mapFind m e.type).isSome ∧ e.size = (getPayload m e).length) :
    writeChunks m s (offsetsFrom s l) =
      some (l.map (getPayload m)).flatten := by
  induction l generalizing s with
  | nil => simp [offsetsFrom, writeChunks]
  | cons e rest ih =>
    obtain ⟨hsome, hsz⟩ := h e (List.mem_cons_self e rest)
    obtain ⟨d, hd⟩ := Option.isSome_iff_exists.mp hsome
    have hpd : getPayload m e = d := by simp [getPayload, hd]
    have hsz' : e.size = d.length := by rw [hsz, hpd]
    have hrec : writeChunks m (s + d.length) (offsetsFrom (s + e.size) rest) =
        some (List.map (getPayload m) rest).flatten := by
      rw [← hsz']
      exact ih (s + e.size) (fun x hx => h x (List.mem_cons_of_mem e hx))
    simp [offsetsFrom, writeChunks, hd, hrec, hpd]

theorem sum_take_le (l : List Nat) (i : Nat) : (l.take i).sum ≤ l.sum := by
  conv_rhs => rw [← List.take_append_drop i l]
  rw [List.sum_append]
  exact Nat.le_add_right _ _

theorem flatten_drop_block (L : List (List Nat)) (suffix : List Nat) (i : Nat)
    (hi : i < L.length) :
    (L.flatten ++ suffix).drop (((L.take i).map List.length).sum) =
      L.get ⟨i, hi⟩ ++ ((L.drop (i + 1)).flatten ++ suffix) := by
  induction L generalizing i with
  | nil => cases hi
  | cons x rest ih =>
    cases i with
    | zero => simp
    | succ j =>
      have hj : j < rest.length := Nat.lt_of_succ_lt_succ hi
      have step : ((x :: rest).flatten ++ suffix).drop
          ((((x :: rest).take (j + 1)).map List.length).sum) =
          (rest.flatten ++ suffix).drop (((rest.take j).map List.length).sum) := by
        simp only [List.take_succ_cons, List.map_cons, List.sum_cons,
          List.flatten_cons, List.append_assoc]
        rw [← List.drop_drop, List.drop_left]
      rw [step, ih j hj]
      simp

theorem flatten_fixed_drop (L : List (List Nat)) (suffix : List Nat) (w i : Nat)
    (hw : ∀ x ∈ L, x.length = w) (hi : i < L.length) :
    (L.flatten ++ suffix).drop (i * w) =
      L.get ⟨i, hi⟩ ++ ((L.drop (i + 1)).flatten ++ suffix) := by
  have hsum : (((L.take i).map List.length).sum) = i * w := by
    have hall : (L.take i).map List.length = List.replicate (min i L.length) w := by
      rw [List.map_eq_replicate_iff.mpr, List.length_take]
      intro x hx
      exact hw x (List.mem_of_mem_take hx)
    rw [hall, List.sum_replicate, smul_eq_mul, Nat.min_eq_left (Nat.le_of_lt hi)]
  rw [← hsum]
  exact flatten_drop_block L suffix i hi

theorem length_flatten_fixed {L : List (List Nat)} {w : Nat}
    (h : ∀ x ∈ L, x.length = w) : L.flatten.length = L.length * w := by
  induction L with
  | nil => simp
  | cons x rest ih =>
    simp only [List.flatten_cons, List.length_append, List.length_cons]
    rw [h x (List.mem_cons_self x rest),
      ih (fun y hy => h y (List.mem_cons_of_mem x hy))]
    ring

theorem readChunksLoop_spec (f : List Nat) (pay : DirEntry → List Nat)
    (entries : List DirEntry) (k : Nat) (acc : List (Nat × List Nat))
    (hpay : ∀ e ∈ entries, (f.drop e.offset).take e.size = pay e)
    (hcrc : ∀ e ∈ entries, crc32 (pay e) = e.checksum) :
    readChunksLoop f k acc entries =
      (entries.foldl (fun m e => mapInsert m e.type (pay e)) acc, none) := by
  induction entries generalizing k acc with
  | nil => simp [readChunksLoop]
  | cons e rest ih =>
    have h1 := hpay e (List.mem_cons_self e rest)
    have h2 := hcrc e (List.mem_cons_self e rest)
    simp only [readChunksLoop, h1, h2]
    rw [if_neg (by simp)]
    simpa using ih (k + 1) (mapInsert acc e.type (pay e))
      (fun x hx => hpay x (List.mem_cons_of_mem e hx))
      (fun x hx => hcrc x (List.mem_cons_of_mem e hx))

theorem foldl_mapInsert (pay : DirEntry → List Nat) (entries : List DirEntry)
    (acc : List (Nat × List Nat))
    (hnd : (entries.map DirEntry.type).Nodup)
    (hdisj : ∀ e ∈ entries, e.type ∉ mapKeys acc) :
    entries.foldl (fun m e => mapInsert m e.type (pay e)) acc =
      acc ++ entries.map (fun e => (e.type, pay e)) := by
  induction entries generalizing acc with
  | nil => simp
  | cons e rest ih =>
    have hins : mapInsert acc e.type (pay e) = acc ++ [(e.type, pay e)] :=
      mapInsert_of_not_mem (hdisj e (List.mem_cons_self e rest))
    have hnd' : (rest.map DirEntry.type).Nodup := (List.nodup_cons.mp hnd).2
    have hdisj' : ∀ x ∈ rest, x.type ∉ mapKeys (acc ++ [(e.type, pay e)]) := by
      intro x hx
      simp only [mapKeys, List.map_append, List.mem_append, List.map_cons]
      rintro (hmem | hmem)
      · exact hdisj x (List.mem_cons_of_mem e hx) hmem
      · have : x.type = e.type := by simpa using hmem
        exact (List.nodup_cons.mp hnd).1
          (this ▸ List.mem_map.mpr ⟨x, hx, rfl⟩)
    simp only [List.foldl_cons, hins, ih _ hnd' hdisj', List.map_cons]
    simp

theorem offsetsFrom_map_typePayload (m : List (Nat × List Nat)) (s : Nat)
    (l : List DirEntry) :
    (offsetsFrom s l).map (fun e => (e.type, getPayload m e)) =
      l.map (fun e => (e.type, getPayload m e)) := by
  induction l generalizing s with
  | nil => rfl
  | cons e rest ih =>
    simp only [offsetsFrom, List.map_cons]
    rw [ih]
    simp [getPayload]

theorem mem_offsetsFrom_iff (s : Nat) (l : List DirEntry) (x : DirEntry) :
    x ∈ offsetsFrom s l ↔ ∃ i, ∃ hi : i < l.length,
      x = { l.get ⟨i, hi⟩ with
            offset := s + ((l.take i).map DirEntry.size).sum } := by
  constructor
  · intro hx
    obtain ⟨⟨i, hi⟩, hget⟩ := List.mem_iff_get.mp hx
    have hi2 : i < l.length := by rwa [offsetsFrom_length] at hi
    exact ⟨i, hi2, by rw [← hget, offsetsFrom_get s l i hi2]⟩
  · rintro ⟨i, hi, rfl⟩
    rw [← offsetsFrom_get s l i hi]
    exact List.get_mem _ _ _

theorem save_spec {a : Asset} (wf : WFAsset a) :
    save_to_file a =
      some ({ a with header := savedHeader a, directory := savedDir a },
        savedFile a) := by
  obtain ⟨wfh, hmagic, hv1, hv2, hv3, hcnt1, hcnt2, hn, hndT, hndK, hent,
    hbound⟩ := wf
  have hassign := assignOffsets_eq_offsetsFrom a.directory
    (headerSize + a.directory.length * entrySize) hbound
  have hwrite := writeChunks_spec a.data a.directory
    (headerSize + a.directory.length * entrySize)
    (fun e he => ⟨(hent e he).2.1, (hent e he).2.2.1⟩)
  simp only [save_to_file]
  rw [if_neg (by push_neg; exact ⟨hcnt1, hcnt2⟩)]
  simp only [hassign, hwrite, savedHeader, savedDir, savedFile]

theorem WFHeader_savedHeader {a : Asset} (wfh : WFHeader a.header)
    (hlt : headerSize + a.directory.length * entrySize +
      (a.directory.map DirEntry.size).sum < 2 ^ 64) :
    WFHeader (savedHeader a) := by
  obtain ⟨m1, m2, m3, m4, m5, m6, m7, m8, m9, _, m11, m12, m13, m14, m15⟩ := wfh
  exact ⟨m1, m2, m3, m4, m5, m6, m7, m8, m9, hlt, m11, m12, m13, m14, m15⟩

theorem prefix_size_add_le {a : Asset}
    (i : Nat) (hi : i < a.directory.length) :
    ((a.directory.take i).map DirEntry.size).sum +
      (a.directory.get ⟨i, hi⟩).size ≤ (a.directory.map DirEntry.size).sum := by
  have hiL : i < (a.directory.map DirEntry.size).length := by simpa using hi
  have hsplit : (a.directory.map DirEntry.size).take (i + 1) =
      (a.directory.map DirEntry.size).take i ++
        [(a.directory.map DirEntry.size).get ⟨i, hiL⟩] := by
    rw [List.take_succ]
    simp [List.getElem?_eq_getElem hiL]
  have h2 : ((a.directory.map DirEntry.size).take (i + 1)).sum ≤
      (a.directory.map DirEntry.size).sum := sum_take_le _ _
  rw [hsplit, List.sum_append, List.sum_cons, List.sum_nil] at h2
  have hget : (a.directory.map DirEntry.size).get ⟨i, hiL⟩ =
      (a.directory.get ⟨i, hi⟩).size := by
    simp [List.get_eq_getElem, List.getElem_map]
  rw [hget] at h2
  rw [← List.map_take] at h2
  omega

set_option maxHeartbeats 1600000 in
theorem load_saved_spec {a : Asset} (wf : WFAsset a) (fresh : Asset) :
    load_from_file_safe fresh (savedFile a) =
      ({ header := savedHeader a, directory := savedDir a,
         data := loadedMap a }, none) := by
  obtain ⟨wfh, hmagic, hv1, hv2, hv3, hcnt1, hcnt2, hn, hndT, hndK, hent,
    hbound⟩ := wf
  have wfh2 : WFHeader (savedHeader a) := WFHeader_savedHeader wfh hbound
  have hHlen : (serializeHeader (savedHeader a)).length = headerSize :=
    length_serializeHeader wfh2
  have hWF2 : ∀ e ∈ savedDir a, WFEntry e := by
    intro e he
    obtain ⟨i, hi, rfl⟩ := (mem_offsetsFrom_iff _ _ _).mp he
    obtain ⟨w1, w2, _, w4, w5, w6, w7⟩ :=
      (hent _ (List.get_mem a.directory i hi)).1
    refine ⟨w1, w2, ?_, w4, w5, w6, w7⟩
    have hle := prefix_size_add_le i hi
    have : ((a.directory.take i).map DirEntry.size).sum ≤
        (a.directory.map DirEntry.size).sum :=
      le_trans (Nat.le_add_right _ _) hle
    exact lt_of_le_of_lt (Nat.add_le_add_left this _) hbound
  have hElen76 : ∀ x ∈ (savedDir a).map serializeEntry, x.length = entrySize := by
    intro x hx
    obtain ⟨e, he, rfl⟩ := List.mem_map.mp hx
    exact length_serializeEntry (hWF2 e he)
  have hElen : ((savedDir a).map serializeEntry).flatten.length =
      a.directory.length * entrySize := by
    rw [length_flatten_fixed hElen76]
    simp [savedDir, offsetsFrom_length]
  have hPlenEq : (a.directory.map (getPayload a.data)).map List.length =
      a.directory.map DirEntry.size := by
    rw [List.map_map]
    exact List.map_congr_left (fun e he => ((hent e he).2.2.1).symm)
  have hPlen : (a.directory.map (getPayload a.data)).flatten.length =
      (a.directory.map DirEntry.size).sum := by
    rw [List.length_flatten, hPlenEq]
  have hflen : (savedFile a).length = headerSize +
      a.directory.length * entrySize + (a.directory.map DirEntry.size).sum := by
    simp only [savedFile, List.length_append, hHlen, hElen, hPlen]
  have d0 : (savedFile a).drop 0 = serializeHeader (savedHeader a) ++
      (((savedDir a).map serializeEntry).flatten ++
        (a.directory.map (getPayload a.data)).flatten) := by
    simp [savedFile, List.append_assoc]
  have d360 : (savedFile a).drop headerSize =
      ((savedDir a).map serializeEntry).flatten ++
        (a.directory.map (getPayload a.data)).flatten := by
    simpa using block_step d0 hHlen
  have dDS : (savedFile a).drop (headerSize + a.directory.length * entrySize) =
      (a.directory.map (getPayload a.data)).flatten :=
    block_step d360 hElen
  have hparse : parseHeader (savedFile a) = savedHeader a := by
    have : savedFile a = serializeHeader (savedHeader a) ++
        (((savedDir a).map serializeEntry).flatten ++
          (a.directory.map (getPayload a.data)).flatten) := by
      simp [savedFile, List.append_assoc]
    rw [this, parseHeader_serializeHeader wfh2]
  have hbad : headerBad (savedHeader a) (savedFile a).length = false := by
    simp only [headerBad, savedHeader, hflen]
    simp [hmagic, Nat.not_lt.mpr hv1, Nat.not_lt.mpr hv2, Nat.not_lt.mpr hv3,
      Nat.not_lt.mpr (le_trans (le_of_eq hcnt1) hn)]
  have hentry : ∀ i, ∀ hi : i < a.directory.length,
      parseEntry ((savedFile a).drop (headerSize + i * entrySize)) =
        (savedDir a).get ⟨i, by rwa [savedDir, offsetsFrom_length]⟩ := by
    intro i hi
    have hdd : (savedFile a).drop (headerSize + i * entrySize) =
        ((savedFile a).drop headerSize).drop (i * entrySize) := by
      rw [List.drop_drop]
    have hiL : i < ((savedDir a).map serializeEntry).length := by
      simpa [savedDir, offsetsFrom_length] using hi
    rw [hdd, d360, flatten_fixed_drop _ _ entrySize i hElen76 hiL]
    have hget : ((savedDir a).map serializeEntry).get ⟨i, hiL⟩ =
        serializeEntry ((savedDir a).get
          ⟨i, by rwa [savedDir, offsetsFrom_length]⟩) := by
      simp [List.get_eq_getElem, List.getElem_map]
    rw [hget, parseEntry_serializeEntry
      (hWF2 _ (List.get_mem _ _ _))]
  have hentries : (List.range a.directory.length).map
      (fun i => parseEntry ((savedFile a).drop (headerSize + i * entrySize))) =
      savedDir a := by
    apply List.ext_getElem
    · simp [savedDir, offsetsFrom_length]
    · intro i h1 h2
      have hi : i < a.directory.length := by simpa using h1
      simp only [List.getElem_map, List.getElem_range]
      have := hentry i hi
      simpa [List.get_eq_getElem] using this
  have hok : ∀ e ∈ savedDir a, entryOk e (savedFile a).length = true := by
    intro e he
    obtain ⟨i, hi, rfl⟩ := (mem_offsetsFrom_iff _ _ _).mp he
    have hle := prefix_size_add_le i hi
    have hpos : 0 < (a.directory.get ⟨i, hi⟩).size := by
      obtain ⟨_, _, hsz, _, hne, _⟩ := hent _ (List.get_mem a.directory i hi)
      rw [hsz]
      exact List.length_pos.mpr hne
    simp only [entryOk, hflen, Bool.and_eq_true, decide_eq_true_eq]
    constructor
    · omega
    · omega
  have hfb : firstBadEntry (savedDir a) (savedFile a).length = none := by
    apply List.findIdx?_eq_none_iff.mpr
    intro e he
    simp [hok e he]
  have hpayload : ∀ e ∈ savedDir a,
      ((savedFile a).drop e.offset).take e.size = getPayload a.data e := by
    intro e he
    obtain ⟨i, hi, rfl⟩ := (mem_offsetsFrom_iff _ _ _).mp he
    have hdd : (savedFile a).drop (headerSize + a.directory.length * entrySize +
        ((a.directory.take i).map DirEntry.size).sum) =
        ((savedFile a).drop (headerSize + a.directory.length * entrySize)).drop
          (((a.directory.take i).map DirEntry.size).sum) := by
      rw [List.drop_drop]
    have hiP : i < (a.directory.map (getPayload a.data)).length := by
      simpa using hi
    have hsum : (((a.directory.map (getPayload a.data)).take i).map
        List.length).sum = ((a.directory.take i).map DirEntry.size).sum := by
      rw [← List.map_take, List.map_map]
      exact congrArg List.sum (List.map_congr_left
        (fun e he => ((hent e (List.mem_of_mem_take he)).2.2.1).symm))
    have hflat : (a.directory.map (getPayload a.data)).flatten =
        (a.directory.map (getPayload a.data)).flatten ++ [] := by simp
    have hdrop := flatten_drop_block (a.directory.map (getPayload a.data)) []
      i hiP
    rw [hsum] at hdrop
    have hgetP : (a.directory.map (getPayload a.data)).get ⟨i, hiP⟩ =
        getPayload a.data (a.directory.get ⟨i, hi⟩) := by
      simp [List.get_eq_getElem, List.getElem_map]
    have hsz : (a.directory.get ⟨i, hi⟩).size =
        (getPayload a.data (a.directory.get ⟨i, hi⟩)).length :=
      (hent _ (List.get_mem a.directory i hi)).2.2.1
    simp only [hdd, dDS]
    rw [hflat, hdrop, hgetP]
    have : getPayload a.data
        { a.directory.get ⟨i, hi⟩ with
          offset := headerSize + a.directory.length * entrySize +
            ((a.directory.take i).map DirEntry.size).sum } =
        getPayload a.data (a.directory.get ⟨i, hi⟩) := by
      simp [getPayload]
    rw [this]
    exact List.take_left' hsz.symm
  have hcrc : ∀ e ∈ savedDir a, crc32 (getPayload a.data e) = e.checksum := by
    intro e he
    obtain ⟨i, hi, rfl⟩ := (mem_offsetsFrom_iff _ _ _).mp he
    have := (hent _ (List.get_mem a.directory i hi)).2.2.2.1
    simpa [getPayload] using this.symm
  have hloop := readChunksLoop_spec (savedFile a) (getPayload a.data)
    (savedDir a) 0 [] hpayload hcrc
  have hfold := foldl_mapInsert (getPayload a.data) (savedDir a) []
    (by rw [savedDir, offsetsFrom_map_type]; exact hndT)
    (by intro e _; simp [mapKeys])
  have hmapeq : (savedDir a).map (fun e => (e.type, getPayload a.data e)) =
      loadedMap a := by
    rw [savedDir, offsetsFrom_map_typePayload, loadedMap]
  have hcc : (savedHeader a).chunk_count = a.directory.length := by
    simp [savedHeader, ← hcnt1]
  have hParsedE : parsedEntries (savedFile a) = savedDir a := by
    unfold parsedEntries
    rw [hparse, hcc]
    exact hentries
  have h1 : ¬ (savedFile a).length < headerSize := by
    rw [hflen]; unfold headerSize; omega
  have h2 : ¬ headerBad (parseHeader (savedFile a)) (savedFile a).length
      = true := by
    rw [hparse, hbad]; simp
  have h3 : ¬ (parseHeader (savedFile a)).chunk_count * entrySize >
      (savedFile a).length - headerSize := by
    rw [hparse, hcc, hflen]
    unfold headerSize entrySize
    omega
  have h2b : ¬ headerBad (savedHeader a) (savedFile a).length = true := by
    rw [hbad]; simp
  have h3b : ¬ (savedHeader a).chunk_count * entrySize >
      (savedFile a).length - headerSize := by
    rw [hcc, hflen]
    unfold headerSize entrySize
    omega
  unfold load_from_file_safe
  simp only [if_neg h1, if_neg h2, if_neg h3, hParsedE, hfb, hloop, hparse,
    hfold, hmapeq, List.nil_append, if_neg h2b, if_neg h3b]

theorem loadedMap_find {a : Asset} (wf : WFAsset a) (t : Nat) :
    mapFind (loadedMap a) t = mapFind a.data t := by
  obtain ⟨_, _, _, _, _, hcnt1, hcnt2, _, hndT, hndK, hent, _⟩ := wf
  have hkeysLM : mapKeys (loadedMap a) = a.directory.map DirEntry.type := by
    simp [mapKeys, loadedMap, List.map_map]
  have hndLM : (mapKeys (loadedMap a)).Nodup := by rw [hkeysLM]; exact hndT
  have hsub : a.directory.map DirEntry.type ⊆ mapKeys a.data := by
    intro t ht
    obtain ⟨e, he, rfl⟩ := List.mem_map.mp ht
    exact mapFind_isSome_iff.mp (hent e he).2.1
  have hperm : (a.directory.map DirEntry.type).Perm (mapKeys a.data) := by
    refine (hndT.subperm hsub).perm_of_length_le ?_
    simp [mapKeys, ← hcnt1, ← hcnt2]
  by_cases hmem : t ∈ a.directory.map DirEntry.type
  · obtain ⟨e, he, rfl⟩ := List.mem_map.mp hmem
    have h1 : mapFind (loadedMap a) e.type = some (getPayload a.data e) := by
      apply mapFind_of_mem_nodup hndLM
      exact List.mem_map.mpr ⟨e, he, rfl⟩
    have h2 : mapFind a.data e.type = some (getPayload a.data e) := by
      obtain ⟨d, hd⟩ := Option.isSome_iff_exists.mp (hent e he).2.1
      rw [hd]
      simp [getPayload, hd]
    rw [h1, h2]
  · have h1 : mapFind (loadedMap a) t = none :=
      mapFind_eq_none (by rwa [hkeysLM])
    have h2 : mapFind a.data t = none :=
      mapFind_eq_none (fun hk => hmem (hperm.mem_iff.mpr hk))
    rw [h1, h2]

/-- C1: for every asset whose chunk tags are pairwise distinct and whose
payloads are valid (captured by `WFAsset`: tags distinct, every directory
entry backed by its exact nonempty payload with matching size and CRC32, and
the reachable header shape), saving with `save_to_file` and loading the
written bytes with `load_from_file_safe` into a fresh asset succeeds and
yields an asset whose header fields (except `total_size`), directory entries
(except `offset`) and tag-to-payload map equal the original's. -/
theorem C1_roundtrip (a fresh : Asset) (wf : WFAsset a) :
    ∃ p, save_to_file a = some p ∧
      (load_from_file_safe fresh p.2).2 = none ∧
      headerEqExceptTotal (load_from_file_safe fresh p.2).1.header a.header ∧
      dirEqExceptOffset (load_from_file_safe fresh p.2).1.directory
        a.directory ∧
      ∀ t, mapFind (load_from_file_safe fresh p.2).1.data t =
        mapFind a.data t := by
  refine ⟨({ a with header := savedHeader a, directory := savedDir a },
    savedFile a), save_spec wf, ?_⟩
  rw [load_saved_spec wf fresh]
  refine ⟨rfl, ?_, ⟨offsetsFrom_length _ _, ?_⟩, loadedMap_find wf⟩
  · simp [headerEqExceptTotal, savedHeader]
  · intro i h1 h2
    have := offsetsFrom_get (headerSize + a.directory.length * entrySize)
      a.directory i h2
    simp only [savedDir]
    rw [this]
    exact ⟨rfl, rfl, rfl, rfl, rfl, rfl⟩

/-- Witness for C1 at a concrete one-chunk asset. -/
theorem C1_roundtrip_witness :
    WFAsset geomAsset ∧
    ∃ p, save_to_file geomAsset = some p ∧
      (load_from_file_safe emptyAsset p.2).2 = none ∧
      headerEqExceptTotal
        (load_from_file_safe emptyAsset p.2).1.header geomAsset.header ∧
      dirEqExceptOffset (load_from_file_safe emptyAsset p.2).1.directory
        geomAsset.directory ∧
      ∀ t, mapFind (load_from_file_safe emptyAsset p.2).1.data t =
        mapFind geomAsset.data t :=
  ⟨by decide, C1_roundtrip geomAsset emptyAsset (by decide)⟩

/-- C5: after `save_to_file` succeeds on a well-formed asset with `n`
directory entries, the relocated entries satisfy
`e₀.offset = header_size + n * entry_size`,
`eᵢ₊₁.offset = eᵢ.offset + eᵢ.size`, and the header records
`total_size = header_size + n * entry_size + Σ payload sizes` (each entry's
`size` equals its payload's length). -/
theorem C5_layout (a a2 : Asset) (f : List Nat) (wf : WFAsset a)
    (hsave : save_to_file a = some (a2, f)) :
    (∀ h0 : 0 < a2.directory.length,
      (a2.directory.get ⟨0, h0⟩).offset =
        headerSize + a2.directory.length * entrySize) ∧
    (∀ i, ∀ hi : i + 1 < a2.directory.length,
      (a2.directory.get ⟨i + 1, hi⟩).offset =
        (a2.directory.get ⟨i, Nat.lt_of_succ_lt hi⟩).offset +
          (a2.directory.get ⟨i, Nat.lt_of_succ_lt hi⟩).size) ∧
    a2.header.total_size = headerSize + a2.directory.length * entrySize +
      (a2.directory.map DirEntry.size).sum ∧
    ∀ e ∈ a2.directory, ∃ d, mapFind a.data e.type = some d ∧
      e.size = d.length := by
  have hspec := save_spec wf
  rw [hsave] at hspec
  have ha2 : a2 = { a with header := savedHeader a, directory := savedDir a } :=
    congrArg Prod.fst (Option.some.inj hspec)
  obtain ⟨_, _, _, _, _, _, _, _, _, _, hent, _⟩ := wf
  subst ha2
  have hlen : (savedDir a).length = a.directory.length :=
    offsetsFrom_length _ _
  refine ⟨?_, ?_, ?_, ?_⟩
  · intro h0
    have h0' : 0 < a.directory.length := by rwa [hlen] at h0
    have := offsetsFrom_get (headerSize + a.directory.length * entrySize)
      a.directory 0 h0'
    simp only [savedDir]
    rw [this]
    simp [savedDir, offsetsFrom_length]
  · intro i hi
    have hi1 : i + 1 < a.directory.length := by rwa [hlen] at hi
    have hi0 : i < a.directory.length := Nat.lt_of_succ_lt hi1
    have hiL : i < (a.directory.map DirEntry.size).length := by simpa using hi0
    have g1 := offsetsFrom_get (headerSize + a.directory.length * entrySize)
      a.directory (i + 1) hi1
    have g0 := offsetsFrom_get (headerSize + a.directory.length * entrySize)
      a.directory i hi0
    have hsplit : (a.directory.map DirEntry.size).take (i + 1) =
        (a.directory.map DirEntry.size).take i ++
          [(a.directory.map DirEntry.size).get ⟨i, hiL⟩] := by
      rw [List.take_succ]
      simp [List.getElem?_eq_getElem hiL]
    have hget : (a.directory.map DirEntry.size).get ⟨i, hiL⟩ =
        (a.directory.get ⟨i, hi0⟩).size := by
      simp [List.get_eq_getElem, List.getElem_map]
    simp only [savedDir]
    rw [g1, g0]
    simp only [List.map_take, hsplit, List.sum_append, hget]
    simp [Nat.add_assoc]
  · simp [savedHeader, savedDir, offsetsFrom_length, offsetsFrom_map_size]
  · intro e he
    simp only [savedDir] at he
    obtain ⟨i, hi, rfl⟩ := (mem_offsetsFrom_iff _ _ _).mp he
    obtain ⟨_, hsome, hsz, _, _, _⟩ :=
      hent _ (List.get_mem a.directory i hi)
    obtain ⟨d, hd⟩ := Option.isSome_iff_exists.mp hsome
    simp only [List.get_eq_getElem] at hd
    exact ⟨d, hd, by simpa [getPayload, hd] using hsz⟩

set_option maxRecDepth 10000 in
/-- Witness for C5 at the concrete one-chunk asset. -/
theorem C5_layout_witness :
    WFAsset geomAsset ∧
    save_to_file geomAsset = some (geomSaved.1, geomSaved.2) ∧
    ((∀ h0 : 0 < geomSaved.1.directory.length,
      (geomSaved.1.directory.get ⟨0, h0⟩).offset =
        headerSize + geomSaved.1.directory.length * entrySize) ∧
    (∀ i, ∀ hi : i + 1 < geomSaved.1.directory.length,
      (geomSaved.1.directory.get ⟨i + 1, hi⟩).offset =
        (geomSaved.1.directory.get ⟨i, Nat.lt_of_succ_lt hi⟩).offset +
          (geomSaved.1.directory.get ⟨i, Nat.lt_of_succ_lt hi⟩).size) ∧
    geomSaved.1.header.total_size =
      headerSize + geomSaved.1.directory.length * entrySize +
        (geomSaved.1.directory.map DirEntry.size).sum ∧
    ∀ e ∈ geomSaved.1.directory, ∃ d, mapFind geomAsset.data e.type = some d ∧
      e.size = d.length) :=
  ⟨by decide, by decide,
    C5_layout geomAsset geomSaved.1 geomSaved.2 (by decide) (by decide)⟩

/-- C6: `load_from_file_safe` fails on every file that is smaller than the
header, and on every file whose parsed header has a wrong magic, version
components above 100/100/1000, a chunk count above 1000, or a `total_size`
different from the file size; in the latter cases the returned failure
carries the diagnostic dump of the first 16 bytes of the file.  A too-small
file is rejected before the header-validation block and produces no dump. -/
theorem C6_validation (a : Asset) (f : List Nat) :
    (f.length < headerSize →
      load_from_file_safe a f = (a, some .tooSmall)) ∧
    (headerSize ≤ f.length →
      ((parseHeader f).magic ≠ [84, 65, 70, 33] ∨
        (parseHeader f).version_major > 100 ∨
        (parseHeader f).version_minor > 100 ∨
        (parseHeader f).version_patch > 1000 ∨
        (parseHeader f).chunk_count > 1000 ∨
        (parseHeader f).total_size ≠ f.length) →
      load_from_file_safe a f = (a, some (.headerInvalid (f.take 16)))) := by
  constructor
  · intro h
    unfold load_from_file_safe
    rw [if_pos h]
  · intro hle hcond
    have hbad : headerBad (parseHeader f) f.length = true := by
      simp only [headerBad, Bool.or_eq_true, bne_iff_ne, decide_eq_true_eq]
      tauto
    unfold load_from_file_safe
    rw [if_neg (Nat.not_lt.mpr hle), if_pos hbad]

set_option maxRecDepth 10000 in
/-- Witness for C6: a 3-byte file is rejected as too small, and a 360-byte
file of fives is rejected by header validation with the 16-byte dump. -/
theorem C6_validation_witness :
    load_from_file_safe emptyAsset [0, 1, 2] =
      (emptyAsset, some .tooSmall) ∧
    load_from_file_safe emptyAsset (List.replicate 360 5) =
      (emptyAsset, some (.headerInvalid (List.replicate 16 5))) := by
  constructor
  · exact (C6_validation emptyAsset [0, 1, 2]).1 (by decide)
  · have := (C6_validation emptyAsset (List.replicate 360 5)).2
      (by decide) (by decide)
    rw [this]
    exact congrArg _ (by decide)

/-- C10: `add_chunk` with a tag that is already present overwrites the
stored payload but appends a second directory entry, so the directory count
exceeds the payload-map size, and `save_to_file` on the resulting asset
fails its chunk-count consistency precheck (returning failure before any
byte of the file is produced). -/
theorem C10_duplicate_tag (a : Asset) (t : Nat) (d old name : List Nat)
    (hpresent : mapFind a.data t = some old)
    (hc1 : a.header.chunk_count = a.directory.length)
    (hc2 : a.header.chunk_count = a.data.length) :
    mapFind (add_chunk a t d name).data t = some d ∧
    (add_chunk a t d name).directory.length = a.directory.length + 1 ∧
    (add_chunk a t d name).data.length = a.data.length ∧
    get_chunk_count (add_chunk a t d name) >
      (add_chunk a t d name).data.length ∧
    save_to_file (add_chunk a t d name) = none := by
  have hsome : (a.data.find? (fun p => p.1 == t)).isSome := by
    have h2 : (mapFind a.data t).isSome := by rw [hpresent]; rfl
    unfold mapFind at h2
    simpa using h2
  have hmapped : ∀ m : List (Nat × List Nat),
      (m.find? (fun p => p.1 == t)).isSome →
      mapFind (m.map (fun p => if p.1 == t then (t, d) else p)) t = some d := by
    intro m
    induction m with
    | nil => intro h; simp at h
    | cons p rest ih =>
      intro h
      by_cases hp : p.1 = t
      · simp [mapFind_cons, hp]
      · have hp2 : (p.1 == t) = false := by simpa using hp
        have h' : (rest.find? (fun p => p.1 == t)).isSome := by
          simpa [List.find?_cons, hp2] using h
        simpa [mapFind_cons, hp, hp2] using ih h'
  have hfind : mapFind (mapInsert a.data t d) t = some d := by
    unfold mapInsert
    rw [if_pos hsome]
    exact hmapped a.data hsome
  have hdlen : (mapInsert a.data t d).length = a.data.length := by
    unfold mapInsert
    rw [if_pos hsome]
    simp
  refine ⟨hfind, by simp [add_chunk], by simp [add_chunk, hdlen], ?_, ?_⟩
  · simp only [add_chunk, get_chunk_count, List.length_append, List.length_cons, List.length_nil, hdlen]
    omega
  · have hcc : (add_chunk a t d name).header.chunk_count =
        (a.directory.length + 1) % 2 ^ 32 := by simp [add_chunk]
    have hdir : (add_chunk a t d name).directory.length =
        a.directory.length + 1 := by simp [add_chunk]
    have hdat : (add_chunk a t d name).data.length = a.data.length := by
      simp [add_chunk, hdlen]
    have hcond : (add_chunk a t d name).header.chunk_count ≠
        (add_chunk a t d name).directory.length ∨
        (add_chunk a t d name).header.chunk_count ≠
        (add_chunk a t d name).data.length := by
      by_cases hmod :
          (a.directory.length + 1) % 2 ^ 32 = a.directory.length + 1
      · right
        rw [hcc, hdat, hmod, ← hc2, hc1]
        omega
      · left
        rw [hcc, hdir]
        exact hmod
    unfold save_to_file
    rw [if_pos hcond]

set_option maxRecDepth 10000 in
/-- Witness for C10: re-adding a GEOM chunk to the one-chunk asset leaves
one stored payload under two directory entries and makes the save fail. -/
theorem C10_duplicate_tag_witness :
    mapFind geomAsset.data GEOM = some [1, 2, 3] ∧
    geomAsset.header.chunk_count = geomAsset.directory.length ∧
    geomAsset.header.chunk_count = geomAsset.data.length ∧
    (mapFind (add_chunk geomAsset GEOM [7, 7] []).data GEOM = some [7, 7] ∧
    (add_chunk geomAsset GEOM [7, 7] []).directory.length =
      geomAsset.directory.length + 1 ∧
    (add_chunk geomAsset GEOM [7, 7] []).data.length =
      geomAsset.data.length ∧
    get_chunk_count (add_chunk geomAsset GEOM [7, 7] []) >
      (add_chunk geomAsset GEOM [7, 7] []).data.length ∧
    save_to_file (add_chunk geomAsset GEOM [7, 7] []) = none) :=
  ⟨by decide, by decide, by decide,
    C10_duplicate_tag geomAsset GEOM [7, 7] [1, 2, 3] [] (by decide)
      (by decide) (by decide)⟩

theorem readChunksLoop_fail (f : List Nat) (entries : List DirEntry)
    (k0 : Nat) (acc : List (Nat × List Nat)) (k : Nat)
    (hk : k < entries.length)
    (hok : ∀ j, j < k → crc32 (chunkBytesAt f (entries.getD j zeroEntry)) =
      (entries.getD j zeroEntry).checksum)
    (hbad : crc32 (chunkBytesAt f (entries.getD k zeroEntry)) ≠
      (entries.getD k zeroEntry).checksum) :
    readChunksLoop f k0 acc entries =
      ((entries.take k).foldl
        (fun m e => mapInsert m e.type (chunkBytesAt f e)) acc,
       some (.checksum (k0 + k))) := by
  induction entries generalizing k k0 acc with
  | nil => cases hk
  | cons e rest ih =>
    cases k with
    | zero =>
      have hbad0 : crc32 (chunkBytesAt f e) ≠ e.checksum := by
        simpa using hbad
      simp [readChunksLoop, chunkBytesAt] at hbad0 ⊢
      simp [hbad0]
    | succ j =>
      have hok0 : crc32 (chunkBytesAt f e) = e.checksum := by
        simpa using hok 0 (Nat.succ_pos j)
      have hj : j < rest.length := Nat.lt_of_succ_lt_succ hk
      have hok' : ∀ i, i < j →
          crc32 (chunkBytesAt f (rest.getD i zeroEntry)) =
            (rest.getD i zeroEntry).checksum := by
        intro i hi
        simpa using hok (i + 1) (Nat.succ_lt_succ hi)
      have hbad' : crc32 (chunkBytesAt f (rest.getD j zeroEntry)) ≠
          (rest.getD j zeroEntry).checksum := by
        simpa using hbad
      have hrec := ih (k0 + 1) (mapInsert acc e.type (chunkBytesAt f e))
        j hj hok' hbad'
      have hstep : readChunksLoop f k0 acc (e :: rest) =
          readChunksLoop f (k0 + 1)
            (mapInsert acc e.type (chunkBytesAt f e)) rest := by
        simp [readChunksLoop, chunkBytesAt] at hok0 ⊢
        simp [hok0]
      rw [hstep, hrec]
      have harith : k0 + 1 + j = k0 + (j + 1) := by omega
      rw [harith]
      simp [List.take_succ_cons]

set_option maxRecDepth 10000 in
/-- Counterexample to C7 as stated: on a file whose second chunk fails its
CRC32 check, `load_from_file_safe` returns failure, but the caller's asset
does hold the first chunk's payload — the partially loaded data is
observable through `get_chunk_data`, so the load is not invalidated as a
whole. -/
theorem C7_checksum_counterexample :
    (load_from_file_safe emptyAsset c7File).2 = some (.checksum 1) ∧
    mapFind (load_from_file_safe emptyAsset c7File).1.data GEOM =
      some [1, 2, 3] := by decide

/-- C7 (amended): whenever a file passes header and directory validation but
some chunk's stored CRC32 differs from the CRC32 recomputed over its payload
bytes, `load_from_file_safe` fails, and the failing chunk's payload is not
stored; however the payloads of the chunks read before the first failing one
remain in the asset's chunk map (the load is not transactional — failure is
signalled only through the returned result). -/
theorem C7_checksum_failure (a : Asset) (f : List Nat) (k : Nat)
    (h1 : ¬ f.length < headerSize)
    (h2 : headerBad (parseHeader f) f.length = false)
    (h3 : ¬ (parseHeader f).chunk_count * entrySize > f.length - headerSize)
    (h4 : firstBadEntry (parsedEntries f) f.length = none)
    (hk : k < (parsedEntries f).length)
    (hok : ∀ j, j < k →
      crc32 (chunkBytesAt f ((parsedEntries f).getD j zeroEntry)) =
        ((parsedEntries f).getD j zeroEntry).checksum)
    (hbad : crc32 (chunkBytesAt f ((parsedEntries f).getD k zeroEntry)) ≠
      ((parsedEntries f).getD k zeroEntry).checksum) :
    (load_from_file_safe a f).2 = some (.checksum k) ∧
    (load_from_file_safe a f).1.data =
      ((parsedEntries f).take k).foldl
        (fun m e => mapInsert m e.type (chunkBytesAt f e)) [] := by
  have hloop := readChunksLoop_fail f (parsedEntries f) 0 [] k hk hok hbad
  have h2b : ¬ headerBad (parseHeader f) f.length = true := by rw [h2]; simp
  unfold load_from_file_safe
  rw [if_neg h1, if_neg h2b, if_neg h3, h4, hloop]
  exact ⟨by simp, rfl⟩

set_option maxRecDepth 10000 in
/-- Witness for the amended C7 at the concrete corrupted file. -/
theorem C7_checksum_failure_witness :
    (¬ c7File.length < headerSize) ∧
    headerBad (parseHeader c7File) c7File.length = false ∧
    (¬ (parseHeader c7File).chunk_count * entrySize >
      c7File.length - headerSize) ∧
    firstBadEntry (parsedEntries c7File) c7File.length = none ∧
    1 < (parsedEntries c7File).length ∧
    ((load_from_file_safe emptyAsset c7File).2 = some (.checksum 1) ∧
     (load_from_file_safe emptyAsset c7File).1.data =
       ((parsedEntries c7File).take 1).foldl
         (fun m e => mapInsert m e.type (chunkBytesAt c7File e)) []) :=
  ⟨by decide, by decide, by decide, by decide, by decide,
    C7_checksum_failure emptyAsset c7File 1 (by decide) (by decide)
      (by decide) (by decide) (by decide) (by decide) (by decide)⟩

theorem mapFind_map_overwrite {t : Nat} {d : List Nat} :
    ∀ m : List (Nat × List Nat), (m.find? (fun p => p.1 == t)).isSome →
    mapFind (m.map (fun p => if p.1 == t then (t, d) else p)) t = some d := by
  intro m
  induction m with
  | nil => intro h; simp at h
  | cons p rest ih =>
    intro h
    by_cases hp : p.1 = t
    · simp [mapFind_cons, hp]
    · have hp2 : (p.1 == t) = false := by simpa using hp
      have h' : (rest.find? (fun p => p.1 == t)).isSome := by
        simpa [List.find?_cons, hp2] using h
      simpa [mapFind_cons, hp, hp2] using ih h'

theorem mapFind_append_single {t : Nat} {d : List Nat} :
    ∀ m : List (Nat × List Nat), m.find? (fun p => p.1 == t) = none →
    mapFind (m ++ [(t, d)]) t = some d := by
  intro m
  induction m with
  | nil => simp [mapFind_cons]
  | cons p rest ih =>
    intro h
    have hp2 : (p.1 == t) = false := by
      by_contra hc
      have : (p.1 == t) = true := by
        cases hb : (p.1 == t) with
        | true => rfl
        | false => exact absurd hb hc
      simp [List.find?_cons, this] at h
    have h' : rest.find? (fun p => p.1 == t) = none := by
      simpa [List.find?_cons, hp2] using h
    have hp : p.1 ≠ t := by simpa using hp2
    simpa [mapFind_cons, hp] using ih h'

theorem mapFind_mapInsert_self (m : List (Nat × List Nat)) (t : Nat)
    (d : List Nat) : mapFind (mapInsert m t d) t = some d := by
  unfold mapInsert
  by_cases h : (m.find? (fun p => p.1 == t)).isSome
  · rw [if_pos h]
    exact mapFind_map_overwrite m h
  · rw [if_neg h]
    exact mapFind_append_single m (Option.not_isSome_iff_eq_none.mp h)

/-- C4: for a `VertexColorChange` operation against an asset holding a GEOM
payload (with `op.data_offset + 16` inside the operation-data blob, as every
operation built by `add_vertex_color_change` guarantees): when the vertex
index (`op.target_hash`) is below the geometry header's `vertex_count`, the
operation has at least 16 data bytes, and the write fits the payload, the
GEOM payload is replaced by a copy in which exactly the 16 bytes at offset
`sizeof(GeometryChunk) + index * vertex_stride + c` are overwritten with the
operation's 16 data bytes, where `c = 36` when the asset has the
`QuantizedCoords` feature and `c = 24` otherwise; when the index is out of
range, the data is short, or the write would overrun, the operation fails. -/
theorem C4_vertex_color (a : Asset) (op : OverlayOp) (opData geom : List Nat)
    (hg : mapFind a.data GEOM = some geom)
    (hwin : op.data_offset + 16 ≤ opData.length) :
    (op.target_hash < fieldN geom 0 4 → 16 ≤ op.data_size →
      geometryChunkSize + op.target_hash * fieldN geom 8 4 +
        (if has_feature a QuantizedCoords then 36 else 24) + 16 ≤
        geom.length →
      ∃ a2, apply_vertex_color_change a op opData = some a2 ∧
        mapFind a2.data GEOM = some
          (geom.take (geometryChunkSize + op.target_hash * fieldN geom 8 4 +
              (if has_feature a QuantizedCoords then 36 else 24)) ++
            (opData.drop op.data_offset).take 16 ++
            geom.drop (geometryChunkSize +
              op.target_hash * fieldN geom 8 4 +
              (if has_feature a QuantizedCoords then 36 else 24) + 16))) ∧
    (fieldN geom 0 4 ≤ op.target_hash →
      apply_vertex_color_change a op opData = none) ∧
    (op.data_size < 16 →
      op.target_hash < fieldN geom 0 4 →
      apply_vertex_color_change a op opData = none) ∧
    (op.target_hash < fieldN geom 0 4 → 16 ≤ op.data_size →
      geom.length < geometryChunkSize + op.target_hash * fieldN geom 8 4 +
        (if has_feature a QuantizedCoords then 36 else 24) + 16 →
      apply_vertex_color_change a op opData = none) := by
  have hlen16 : ((opData.drop op.data_offset).take 16).length = 16 := by
    rw [List.length_take, List.length_drop]
    omega
  refine ⟨?_, ?_, ?_, ?_⟩
  · intro hidx hdata hfit
    unfold apply_vertex_color_change
    rw [hg]
    simp only [if_neg (Nat.not_le.mpr hidx), if_neg (Nat.not_lt.mpr hdata),
      if_neg (Nat.not_lt.mpr hfit)]
    refine ⟨_, rfl, ?_⟩
    have hmap : mapFind (add_chunk (remove_chunk a GEOM) GEOM
        (overwriteAt geom (geometryChunkSize +
          op.target_hash * fieldN geom 8 4 +
          (if has_feature a QuantizedCoords then 36 else 24))
          ((opData.drop op.data_offset).take 16)) modifiedGeomName).data GEOM =
        some (overwriteAt geom (geometryChunkSize +
          op.target_hash * fieldN geom 8 4 +
          (if has_feature a QuantizedCoords then 36 else 24))
          ((opData.drop op.data_offset).take 16)) := by
      simp only [add_chunk]
      exact mapFind_mapInsert_self _ _ _
    rw [hmap]
    unfold overwriteAt
    rw [hlen16]
  · intro hidx
    unfold apply_vertex_color_change
    rw [hg]
    simp [Nat.not_lt.mpr hidx]
  · intro hdata hidx
    unfold apply_vertex_color_change
    rw [hg]
    simp only [if_neg (Nat.not_le.mpr hidx)]
    rw [if_pos hdata]
  · intro hidx hdata hover
    unfold apply_vertex_color_change
    rw [hg]
    simp only [if_neg (Nat.not_le.mpr hidx), if_neg (Nat.not_lt.mpr hdata)]
    rw [if_pos hover]

set_option maxRecDepth 10000 in
/-- Witness for C4: the colour write lands at bytes 136..152 of the payload
(offset `112 + 0 * 40 + 24`). -/
theorem C4_vertex_color_witness :
    mapFind c4Asset.data GEOM = some c4Geom ∧
    c4Op.data_offset + 16 ≤ c4OpData.length ∧
    c4Op.target_hash < fieldN c4Geom 0 4 ∧ 16 ≤ c4Op.data_size ∧
    (∃ a2, apply_vertex_color_change c4Asset c4Op c4OpData = some a2 ∧
      mapFind a2.data GEOM = some
        (c4Geom.take 136 ++ (c4OpData.drop 0).take 16 ++ c4Geom.drop 152)) :=
  ⟨by decide, by decide, by decide, by decide,
    (C4_vertex_color c4Asset c4Op c4OpData c4Geom (by decide) (by decide)).1
      (by decide) (by decide) (by decide)⟩

set_option maxRecDepth 10000 in
/-- C3: `Overlay::apply_shader_replacement` is an explicit TODO stub — its
body only prints the two hashes and returns `true` — so applying a
`ShaderReplace` operation through `apply_to_asset` reports success while
leaving the asset untouched: the targeted descriptor's `spirv_size` is
still 8 afterwards, not the 256 the claim requires, even though the
replacement blob is a valid 256-byte SPIR-V module. -/
theorem C3_shader_replace_stub :
    targets_asset c3Overlay c3Asset = true ∧
    apply_to_asset c3Overlay c3Asset = some c3Asset ∧
    mapFind c3Asset.data SHDR = some c3ShaderPayload ∧
    fieldN c3ShaderPayload 16 8 = fnv1a dataDrivenFragName ∧
    fieldN c3ShaderPayload 36 4 = 8 ∧
    c3Overlay.operation_data.length = 256 ∧
    fieldN c3Overlay.operation_data 0 4 = 0x07230203 ∧
    (8 : Nat) ≠ 256 := by
  decide

theorem bytes_lt_append {l1 l2 : List Nat} (h1 : ∀ b ∈ l1, b < 256)
    (h2 : ∀ b ∈ l2, b < 256) : ∀ b ∈ l1 ++ l2, b < 256 := by
  intro b hb
  rcases List.mem_append.mp hb with h | h
  · exact h1 b h
  · exact h2 b h

theorem bytes_lt_leBytes (w v : Nat) : ∀ b ∈ leBytes w v, b < 256 := by
  induction w generalizing v with
  | zero => intro b hb; cases hb
  | succ w ih =>
    intro b hb
    rcases List.mem_cons.mp hb with h | h
    · rw [h]; exact Nat.mod_lt _ (by norm_num)
    · exact ih (v / 256) b h

theorem bytes_lt_replicate (n : Nat) :
    ∀ b ∈ List.replicate n (0 : Nat), b < 256 := by
  intro b hb
  rw [List.eq_of_mem_replicate hb]
  norm_num

theorem bytes_lt_audioHeader (a1 a2 a3 a4 a5 a6 a7 a8 : Nat) :
    ∀ b ∈ audioHeaderBytes a1 a2 a3 a4 a5 a6 a7 a8, b < 256 := by
  unfold audioHeaderBytes
  exact bytes_lt_append (bytes_lt_append (bytes_lt_append (bytes_lt_append
    (bytes_lt_append (bytes_lt_append (bytes_lt_append (bytes_lt_append
      (bytes_lt_leBytes 4 a1) (bytes_lt_leBytes 4 a2))
      (bytes_lt_leBytes 4 a3)) (bytes_lt_leBytes 4 a4))
      (bytes_lt_leBytes 4 a5)) (bytes_lt_leBytes 4 a6))
      (bytes_lt_leBytes 4 a7)) (bytes_lt_leBytes 4 a8))
    (bytes_lt_replicate 16)

theorem bytes_lt_audioNode (a1 a2 a3 a4 a5 a6 a7 a8 a9 : Nat) :
    ∀ b ∈ audioNodeBytes a1 a2 a3 a4 a5 a6 a7 a8 a9, b < 256 := by
  unfold audioNodeBytes
  exact bytes_lt_append (bytes_lt_append (bytes_lt_append (bytes_lt_append
    (bytes_lt_append (bytes_lt_append (bytes_lt_append (bytes_lt_append
      (bytes_lt_append (bytes_lt_leBytes 4 a1) (bytes_lt_leBytes 4 a2))
      (bytes_lt_leBytes 8 a3)) (bytes_lt_leBytes 4 a4))
      (bytes_lt_leBytes 4 a5)) (bytes_lt_leBytes 4 a6))
      (bytes_lt_leBytes 4 a7)) (bytes_lt_leBytes 4 a8))
      (bytes_lt_leBytes 4 a9))
    (bytes_lt_replicate 16)

theorem bytes_lt_audioConn (a1 a2 a3 a4 a5 : Nat) :
    ∀ b ∈ audioConnBytes a1 a2 a3 a4 a5, b < 256 := by
  unfold audioConnBytes
  exact bytes_lt_append (bytes_lt_append (bytes_lt_append (bytes_lt_append
    (bytes_lt_append (bytes_lt_leBytes 4 a1) (bytes_lt_leBytes 4 a2))
    (bytes_lt_leBytes 4 a3)) (bytes_lt_leBytes 4 a4))
    (bytes_lt_leBytes 4 a5)) (bytes_lt_replicate 12)

theorem bytes_lt_audioParam (a1 a2 a3 a4 a5 a6 : Nat) :
    ∀ b ∈ audioParamBytes a1 a2 a3 a4 a5 a6, b < 256 := by
  unfold audioParamBytes
  exact bytes_lt_append (bytes_lt_append (bytes_lt_append (bytes_lt_append
    (bytes_lt_append (bytes_lt_append (bytes_lt_leBytes 8 a1)
    (bytes_lt_leBytes 4 a2)) (bytes_lt_leBytes 4 a3))
    (bytes_lt_leBytes 4 a4)) (bytes_lt_leBytes 4 a5))
    (bytes_lt_leBytes 4 a6)) (bytes_lt_replicate 8)

theorem bytes_lt_waveformPayload (f s w d : Nat) :
    ∀ b ∈ waveformAudioPayload f s w d, b < 256 := by
  unfold waveformAudioPayload
  exact bytes_lt_append (bytes_lt_audioHeader _ _ _ _ _ _ _ _)
    (bytes_lt_append (bytes_lt_audioNode _ _ _ _ _ _ _ _ _)
    (bytes_lt_append (bytes_lt_audioNode _ _ _ _ _ _ _ _ _)
    (bytes_lt_append (bytes_lt_audioNode _ _ _ _ _ _ _ _ _)
    (bytes_lt_append (bytes_lt_audioConn _ _ _ _ _)
    (bytes_lt_append (bytes_lt_audioConn _ _ _ _ _)
    (bytes_lt_append (bytes_lt_audioParam _ _ _ _ _ _)
    (bytes_lt_append (bytes_lt_audioParam _ _ _ _ _ _)
    (bytes_lt_append (bytes_lt_audioParam _ _ _ _ _ _)
    (bytes_lt_audioParam _ _ _ _ _ _)))))))))

set_option maxRecDepth 10000 in
theorem length_waveformPayload (f s w d : Nat) :
    (waveformAudioPayload f s w d).length = 424 := by
  simp [waveformAudioPayload, audioHeaderBytes, audioNodeBytes,
    audioConnBytes, audioParamBytes]

theorem length_audioHeaderBytes (a1 a2 a3 a4 a5 a6 a7 a8 : Nat) :
    (audioHeaderBytes a1 a2 a3 a4 a5 a6 a7 a8).length = 48 := by
  simp [audioHeaderBytes]

theorem length_audioNodeBytes (a1 a2 a3 a4 a5 a6 a7 a8 a9 : Nat) :
    (audioNodeBytes a1 a2 a3 a4 a5 a6 a7 a8 a9).length = 56 := by
  simp [audioNodeBytes]

theorem length_audioConnBytes (a1 a2 a3 a4 a5 : Nat) :
    (audioConnBytes a1 a2 a3 a4 a5).length = 32 := by
  simp [audioConnBytes]

theorem length_audioParamBytes (a1 a2 a3 a4 a5 a6 : Nat) :
    (audioParamBytes a1 a2 a3 a4 a5 a6).length = 36 := by
  simp [audioParamBytes]

theorem WFAsset_single (base : Asset) (t : Nat) (d name : List Nat)
    (hbh : WFHeader base.header)
    (hmagic : base.header.magic = [84, 65, 70, 33])
    (hv1 : base.header.version_major ≤ 100)
    (hv2 : base.header.version_minor ≤ 100)
    (hv3 : base.header.version_patch ≤ 1000)
    (hdir : base.directory = [])
    (hdata : base.data = [])
    (ht : t < 2 ^ 32)
    (hd : d ≠ []) (hdb : ∀ b ∈ d, b < 256)
    (hname : name.length = 32)
    (hlen : headerSize + entrySize + d.length < 2 ^ 64) :
    WFAsset (add_chunk base t d name) := by
  have hdirA : (add_chunk base t d name).directory =
      [{ type := t, flags := 0, offset := 0, size := d.length,
         checksum := crc32 d, name := name,
         reserved := List.replicate 16 0 }] := by
    simp [add_chunk, hdir]
  have hdataA : (add_chunk base t d name).data = [(t, d)] := by
    simp [add_chunk, hdata, mapInsert, List.find?]
  have hcc : (add_chunk base t d name).header.chunk_count = 1 := by
    simp [add_chunk, hdir]
  have hszlt : d.length < 2 ^ 64 := by
    unfold headerSize entrySize at hlen
    omega
  refine ⟨?_, ?_, ?_, ?_, ?_, ?_, ?_, ?_, ?_, ?_, ?_, ?_⟩
  · obtain ⟨m1, m2, m3, m4, m5, m6, _, m8, m9, m10, m11, m12, m13, m14,
      m15⟩ := hbh
    exact ⟨by simpa [add_chunk] using m1, by simpa [add_chunk] using m2,
      by simpa [add_chunk] using m3, by simpa [add_chunk] using m4,
      by simpa [add_chunk] using m5, by simpa [add_chunk] using m6,
      by rw [hcc]; norm_num,
      by simpa [add_chunk] using m8, by simpa [add_chunk] using m9,
      by simpa [add_chunk] using m10, by simpa [add_chunk] using m11,
      by simpa [add_chunk] using m12, by simpa [add_chunk] using m13,
      by simpa [add_chunk] using m14, by simpa [add_chunk] using m15⟩
  · simpa [add_chunk] using hmagic
  · simpa [add_chunk] using hv1
  · simpa [add_chunk] using hv2
  · simpa [add_chunk] using hv3
  · rw [hcc, hdirA]
    rfl
  · rw [hcc, hdataA]
    rfl
  · rw [hdirA]
    norm_num
  · rw [hdirA]
    simp
  · rw [hdataA]
    simp [mapKeys]
  · intro e he
    rw [hdirA] at he
    have he2 := List.mem_singleton.mp he
    subst he2
    have hfind : mapFind (add_chunk base t d name).data t = some d := by
      rw [hdataA, mapFind_cons]
      simp
    refine ⟨⟨ht, by norm_num, by norm_num, hszlt, crc32_lt hdb, hname,
      by simp⟩, ?_, ?_, ?_, ?_, ?_⟩
    · rw [hfind]; rfl
    · simp [getPayload, hfind]
    · simp [getPayload, hfind]
    · simp [getPayload, hfind, hd]
    · simpa [getPayload, hfind] using hdb
  · rw [hdirA]
    simpa [headerSize, entrySize] using hlen

/-- C9: the sine-oscillator audio payload built by
`createWaveformAudioAsset` with frequency 440 (IEEE-754 bits `0x43DC0000`;
`sample_rate` is the float truncated to `uint32_t`, i.e. 440) has total
size `sizeof(AudioChunk) + 3*sizeof(Node) + 2*sizeof(Connection) +
4*sizeof(Parameter)`; the parameter record at byte 280 (after header and
node/connection arrays) carries `name_hash = fnv1a("frequency")`,
`default_value = 440.0f` (`0x43DC0000`), `min_value = 20.0f`
(`0x41A00000`), `max_value = 20000.0f` (`0x469C4000`) and `curve = 2.0f`
(`0x40000000`); and the payload survives `save_to_file` plus
`load_from_file_safe` byte-for-byte. -/
theorem C9_sine_audio (d : Nat) (hd : d < 2 ^ 32) :
    (waveformAudioPayload 0x43DC0000 440 0 d).length =
      audioChunkSize + 3 * audioNodeSize + 2 * audioConnSize +
        4 * audioParamSize ∧
    fieldN (waveformAudioPayload 0x43DC0000 440 0 d) 280 8 =
      fnv1a frequencyName ∧
    fieldN (waveformAudioPayload 0x43DC0000 440 0 d) 288 4 = 0x43DC0000 ∧
    fieldN (waveformAudioPayload 0x43DC0000 440 0 d) 292 4 = 0x41A00000 ∧
    fieldN (waveformAudioPayload 0x43DC0000 440 0 d) 296 4 = 0x469C4000 ∧
    fieldN (waveformAudioPayload 0x43DC0000 440 0 d) 300 4 = 0x40000000 ∧
    ∃ p, save_to_file (waveformAudioAsset 0x43DC0000 440 0 d) = some p ∧
      (load_from_file_safe emptyAsset p.2).2 = none ∧
      mapFind (load_from_file_safe emptyAsset p.2).1.data AUDI =
        some (waveformAudioPayload 0x43DC0000 440 0 d) := by
  have d0 : (waveformAudioPayload 0x43DC0000 440 0 d).drop 0 =
      audioHeaderBytes 3 2 0 0 4 440 0 0 ++
      (audioNodeBytes 0 0 (fnv1a sineOscName) 0x42C80000 0x42C80000
          1 1 0 2 ++
       (audioNodeBytes 1 11 (fnv1a mainAmpName) 0x43960000 0x42C80000
           2 1 2 1 ++
        (audioNodeBytes 2 41 (fnv1a timeParamName) 0x42C80000 0x43480000
            0 1 3 1 ++
         (audioConnBytes 0 0 1 0 0x3F800000 ++
          (audioConnBytes 2 0 0 0 0 ++
           (audioParamBytes (fnv1a frequencyName) 0x43DC0000 0x41A00000
               0x469C4000 0x40000000 0 ++
            (audioParamBytes (fnv1a waveformName) 0 0 0x40800000
                0x3F800000 0 ++
             (audioParamBytes (fnv1a amplitudeName) 0x3F333333 0 0x3F800000
                 0x3F800000 0 ++
              audioParamBytes (fnv1a timeName) 0 0 d 0x3F800000 0)))))))) := by
    simp [waveformAudioPayload]
  have d48 := block_step d0 (length_audioHeaderBytes 3 2 0 0 4 440 0 0)
  have d104 := block_step d48 (length_audioNodeBytes _ _ _ _ _ _ _ _ _)
  have d160 := block_step d104 (length_audioNodeBytes _ _ _ _ _ _ _ _ _)
  have d216 := block_step d160 (length_audioNodeBytes _ _ _ _ _ _ _ _ _)
  have d248 := block_step d216 (length_audioConnBytes _ _ _ _ _)
  have d280 := block_step d248 (length_audioConnBytes _ _ _ _ _)
  have d280e : (waveformAudioPayload 0x43DC0000 440 0 d).drop 280 =
      leBytes 8 (fnv1a frequencyName) ++
      (leBytes 4 0x43DC0000 ++ (leBytes 4 0x41A00000 ++
       (leBytes 4 0x469C4000 ++ (leBytes 4 0x40000000 ++ (leBytes 4 0 ++
        (List.replicate 8 0 ++
         (audioParamBytes (fnv1a waveformName) 0 0 0x40800000
             0x3F800000 0 ++
          (audioParamBytes (fnv1a amplitudeName) 0x3F333333 0 0x3F800000
              0x3F800000 0 ++
           audioParamBytes (fnv1a timeName) 0 0 d 0x3F800000 0)))))))) := by
    simpa [audioParamBytes, List.append_assoc] using d280
  have d288 := block_step d280e (length_leBytes 8 _)
  have d292 := block_step d288 (length_leBytes 4 _)
  have d296 := block_step d292 (length_leBytes 4 _)
  have d300 := block_step d296 (length_leBytes 4 _)
  have wf : WFAsset (waveformAudioAsset 0x43DC0000 440 0 d) := by
    unfold waveformAudioAsset
    refine WFAsset_single _ _ _ _ (by decide) (by decide) (by decide)
      (by decide) (by decide) rfl rfl (by decide) ?_
      (bytes_lt_waveformPayload _ _ _ _) (by decide) ?_
    · intro hnil
      have hlen := length_waveformPayload 0x43DC0000 440 0 d
      rw [hnil] at hlen
      simp at hlen
    · rw [length_waveformPayload]
      norm_num [headerSize, entrySize]
  have hdata : (waveformAudioAsset 0x43DC0000 440 0 d).data =
      [(AUDI, waveformAudioPayload 0x43DC0000 440 0 d)] := by
    simp [waveformAudioAsset, add_chunk, mapInsert, List.find?,
      set_feature_flags, set_description, set_creator, emptyAsset]
  refine ⟨by rw [length_waveformPayload]; rfl,
    fieldN_block d280e (by decide),
    fieldN_block d288 (by decide), fieldN_block d292 (by decide),
    fieldN_block d296 (by decide), fieldN_block d300 (by decide),
    ⟨_, save_spec wf, ?_, ?_⟩⟩
  · rw [load_saved_spec wf emptyAsset]
  · rw [load_saved_spec wf emptyAsset]
    have := loadedMap_find wf AUDI
    simp only [load_saved_spec wf emptyAsset] at this ⊢
    rw [this, hdata, mapFind_cons]
    simp

/-- Witness for C9 at duration bits `0x40000000` (2.0f). -/
theorem C9_sine_audio_witness :
    (0x40000000 : Nat) < 2 ^ 32 ∧
    ((waveformAudioPayload 0x43DC0000 440 0 0x40000000).length =
      audioChunkSize + 3 * audioNodeSize + 2 * audioConnSize +
        4 * audioParamSize ∧
    fieldN (waveformAudioPayload 0x43DC0000 440 0 0x40000000) 280 8 =
      fnv1a frequencyName ∧
    fieldN (waveformAudioPayload 0x43DC0000 440 0 0x40000000) 288 4 =
      0x43DC0000 ∧
    fieldN (waveformAudioPayload 0x43DC0000 440 0 0x40000000) 292 4 =
      0x41A00000 ∧
    fieldN (waveformAudioPayload 0x43DC0000 440 0 0x40000000) 296 4 =
      0x469C4000 ∧
    fieldN (waveformAudioPayload 0x43DC0000 440 0 0x40000000) 300 4 =
      0x40000000 ∧
    ∃ p, save_to_file (waveformAudioAsset 0x43DC0000 440 0 0x40000000) =
        some p ∧
      (load_from_file_safe emptyAsset p.2).2 = none ∧
      mapFind (load_from_file_safe emptyAsset p.2).1.data AUDI =
        some (waveformAudioPayload 0x43DC0000 440 0 0x40000000)) :=
  ⟨by decide, C9_sine_audio 0x40000000 (by decide)⟩

theorem minPos_lt {c : List CacheEntry} (h : c ≠ []) :
    (minPos c).1 < c.length := by
  induction c with
  | nil => exact absurd rfl h
  | cons e rest ih =>
    cases rest with
    | nil => simp [minPos]
    | cons r rs =>
      by_cases hlt : (minPos (r :: rs)).2 < e.access_count
      · have hih := ih (List.cons_ne_nil r rs)
        simp only [List.length_cons] at hih
        simp only [minPos, if_pos hlt, List.length_cons]
        omega
      · simp [minPos, if_neg hlt]

theorem evictLoop_le (c : List CacheEntry) :
    totalCacheSize (evictLoop c) ≤ cacheLimit := by
  have main : ∀ n, ∀ c : List CacheEntry, c.length ≤ n →
      totalCacheSize (evictLoop c) ≤ cacheLimit := by
    intro n
    induction n with
    | zero =>
      intro c hc
      have hnil : c = [] := List.length_eq_zero.mp (Nat.le_zero.mp hc)
      subst hnil
      rw [evictLoop]
      simp [totalCacheSize]
    | succ n ih =>
      intro c hc
      rw [evictLoop]
      by_cases h : totalCacheSize c > cacheLimit ∧ c ≠ []
      · rw [dif_pos h]
        apply ih
        have hlt := minPos_lt h.2
        simp only [removeLeastAccessed, List.length_eraseIdx, if_pos hlt]
        omega
      · rw [dif_neg h]
        push_neg at h
        by_cases hle : totalCacheSize c ≤ cacheLimit
        · exact hle
        · have : c = [] := h (Nat.lt_of_not_le hle)
          subst this
          simp [totalCacheSize]
  exact main c.length c le_rfl

theorem totalCacheSize_bumpAccess (c : List CacheEntry) (i : Nat) :
    totalCacheSize (bumpAccess c i) = totalCacheSize c := by
  unfold totalCacheSize bumpAccess
  rw [List.map_map]
  congr 1
  apply List.map_congr_left
  intro e _
  by_cases h : e.idx = i <;> simp [h]

/-- C2 (amended): one `loadChunk` call can grow the cached total to at most
50 MiB plus the size of the payload it just inserted — the eviction loop
enforces the 50 MiB bound on the cache contents *before* the insertion, and
hits and failed reads leave the total unchanged. -/
theorem C2_cache_bound (L : Loader) (i : Nat) :
    totalCacheSize (loadChunk L i).2.cache ≤
      max (totalCacheSize L.cache) (cacheLimit + (loadChunk L i).1.length) := by
  unfold loadChunk
  by_cases hidx : i ≥ L.directory.length
  · rw [if_pos hidx]
    exact le_max_left _ _
  · rw [if_neg hidx]
    cases hfind : cacheFind L.cache i with
    | some e =>
      simp only [totalCacheSize_bumpAccess]
      exact le_max_left _ _
    | none =>
      by_cases hempty : loadChunkInternal L i = []
      · rw [if_pos hempty]
        exact le_max_left _ _
      · rw [if_neg hempty]
        refine le_trans ?_ (le_max_right _ _)
        simp only [totalCacheSize, List.map_append, List.sum_append,
          List.map_cons, List.map_nil, List.sum_cons, List.sum_nil]
        have := evictLoop_le L.cache
        unfold totalCacheSize at this
        omega

theorem loadChunk_miss {L : Loader} {i : Nat}
    (hidx : ¬ i ≥ L.directory.length)
    (hcf : cacheFind L.cache i = none) (d : List Nat)
    (hint : loadChunkInternal L i = d) (hne : d ≠ []) :
    loadChunk L i = (d,
      { L with
        misses := L.misses + 1
        cache := evictLoop L.cache ++ [⟨i, d, 1⟩] }) := by
  unfold loadChunk
  rw [if_neg hidx, hcf, hint]
  exact if_neg hne

theorem c2_internal0 : loadChunkInternal c2Loader 0 =
    List.replicate 31457280 0 := by
  unfold loadChunkInternal
  simp only [c2Loader, List.getD_cons_zero, c2Entry0, not_true, if_false,
    List.drop_zero, List.take_replicate]
  have hmin : (31457280 : Nat) ⊓ 62914560 = 31457280 := by norm_num
  rw [hmin, if_pos (List.length_replicate 31457280 0)]

theorem c2_internal1 : loadChunkInternal c2Loader1 1 =
    List.replicate 31457280 0 := by
  unfold loadChunkInternal
  simp only [c2Loader1, c2Loader, List.getD_cons_succ, List.getD_cons_zero,
    c2Entry1, not_true, if_false, List.drop_replicate, List.take_replicate]
  have hsub : (62914560 : Nat) - 31457280 = 31457280 := by norm_num
  have hmin : (31457280 : Nat) ⊓ 31457280 = 31457280 := by norm_num
  rw [hsub, hmin, if_pos (List.length_replicate 31457280 0)]

theorem c2_evict_nil : evictLoop ([] : List CacheEntry) = [] := by
  rw [evictLoop]
  simp [totalCacheSize]

theorem c2_rep_ne_nil : List.replicate 31457280 (0 : Nat) ≠ [] := by
  intro h
  have hlen := congrArg List.length h
  simp only [List.length_replicate, List.length_nil] at hlen
  omega

theorem c2_evict1 : evictLoop c2Loader1.cache = c2Loader1.cache := by
  rw [evictLoop]
  rw [dif_neg]
  intro h
  have h1 := h.1
  simp only [c2Loader1, totalCacheSize, cacheLimit, List.map_cons,
    List.map_nil, List.sum_cons, List.sum_nil,
    List.length_replicate] at h1
  omega

theorem c2_load0 : loadChunk c2Loader 0 =
    (List.replicate 31457280 0, c2Loader1) := by
  have hidx : ¬ (0 ≥ c2Loader.directory.length) := by decide
  rw [loadChunk_miss hidx rfl (List.replicate 31457280 0)
    c2_internal0 c2_rep_ne_nil]
  have hc : c2Loader.cache = [] := rfl
  rw [hc, c2_evict_nil]
  rfl

theorem c2_load1 : loadChunk c2Loader1 1 =
    (List.replicate 31457280 0,
     { c2Loader1 with
       misses := 2
       cache := [⟨0, List.replicate 31457280 0, 1⟩,
                 ⟨1, List.replicate 31457280 0, 1⟩] }) := by
  have hidx : ¬ (1 ≥ c2Loader1.directory.length) := by decide
  rw [loadChunk_miss hidx rfl (List.replicate 31457280 0)
    c2_internal1 c2_rep_ne_nil]
  rw [c2_evict1]
  rfl

/-- C2 counterexample: starting from an empty cache over a 60 MiB file with
two 30 MiB chunks, loading chunk 0 and then chunk 1 leaves 60 MiB
(62914560 bytes) in the cache — above the claimed 50 MiB bound — because
`loadChunk` runs the eviction loop over the cache as it is *before*
inserting the freshly read chunk. -/
theorem C2_cache_counterexample :
    totalCacheSize ((loadChunk (loadChunk c2Loader 0).2 1).2).cache =
      62914560 ∧
    cacheLimit <
      totalCacheSize ((loadChunk (loadChunk c2Loader 0).2 1).2).cache := by
  have h0 : (loadChunk c2Loader 0).2 = c2Loader1 := by rw [c2_load0]
  rw [h0]
  have h1 : ((loadChunk c2Loader1 1).2).cache =
      [⟨0, List.replicate 31457280 0, 1⟩,
       ⟨1, List.replicate 31457280 0, 1⟩] := by rw [c2_load1]
  rw [h1]
  constructor
  · simp only [totalCacheSize, List.map_cons, List.map_nil, List.sum_cons,
      List.sum_nil, List.length_replicate]
    norm_num
  · simp only [totalCacheSize, cacheLimit, List.map_cons, List.map_nil,
      List.sum_cons, List.sum_nil, List.length_replicate]
    norm_num

set_option maxRecDepth 10000 in
/-- C8: the chunked writer does not produce a valid TAF file — after
`begin(); addMetadataChunk({1,2,3,4}); finalize()` the produced file holds
only the 360-byte header and one 76-byte directory entry (436 bytes), while
that entry declares offset 436 and size 4, a range that extends past the
end of the file; the header's `total_size` field says 440 ≠ 436, so
`load_from_file_safe` rejects the file outright; the payload bytes
`{1,2,3,4}` appear nowhere in the produced file.  Only the re-entry guard
holds: a second `finalize()` is rejected. -/
theorem C8_missing_payloads :
    c8Run.isSome = true ∧
    c8File.length = 436 ∧
    c8Writer2.directory.map (fun e => (e.offset, e.size)) = [(436, 4)] ∧
    c8File.length < 436 + 4 ∧
    fieldN c8File 40 8 = 440 ∧
    (load_from_file_safe emptyAsset c8File).2 =
      some (.headerInvalid (c8File.take 16)) ∧
    (load_from_file_safe emptyAsset c8File).1 = emptyAsset ∧
    writerFinalize c8Writer2 0 = none := by decide

end Taffy
